import Mathlib

/-!
Verification development for the `preforkj` JVM prefork pool
(`src/preforkj.py`, class `CJavaPrefork`).

The Python class is embedded shallowly:

* `ProcessInfo` mirrors the per-slot dict stored in `self._status`
  (fields `pid`, `status`, `unique_id`, `control`, `commandline`,
  `classpath`).  The extra `sid` field is a model artifact: it tags the
  identity of the underlying Python dict object (dicts are mutated in
  place and tracked across list operations), so that "the same slot"
  can be spoken about across a sequence of operations.  It is never
  serialized and no operation depends on its value.
* `MState` mirrors the object state: `_groups`, `_status`, the content
  of the persisted status file (as a character list) and the model's
  slot-identity counter.
* `run_jvm`, `prefork_jvm`, `exec_` and `update_status` are direct
  translations of `CJavaPrefork._run_jvm`, `prefork_jvm`, `exec_` and
  `update_status` (Linux code paths).  Process launching and the
  liveness check (`psutil.pid_exists`) are external collaborators and
  enter as oracles (`SpawnRes`, `alive : Nat → Bool`).
* the persisted file is written the way the code writes it:
  `seek(0)` followed by `json.dump` without truncation, i.e. the new
  serialization overwrites the old content in place and any longer old
  tail survives (`overwrite`).
-/

namespace Preforkj

/-- Child process status code `CJavaPrefork.STATUS_IDLE` (integer `0` in the code). -/
def STATUS_IDLE : Nat := 0

/-- Child process status code `CJavaPrefork.STATUS_COMMAND_SENT` (integer `1` in the code). -/
def STATUS_COMMAND_SENT : Nat := 1

/-- `CJavaPrefork.DEFAULT_OPTIONS`. -/
def DEFAULT_OPTIONS : List String := ["-Djava.awt.headless=true", "-Dapplication.name=CJavaPrefork"]

/-- `CJavaPrefork.DRIP_MAIN`. -/
def DRIP_MAIN : String := "org.flatland.drip.Main"

/-- `CJavaPrefork.CLASSPATH_SEPARATOR` (`os.pathsep`, `:` on Linux). -/
def CLASSPATH_SEPARATOR : String := ":"

/-- One slot record of `self._status` (the per-process dict).  `sid` is the
model-artifact identity tag described in the file header. -/
structure ProcessInfo where
  pid : Nat
  status : Nat
  unique_id : String
  control : String
  commandline : String
  classpath : String
  sid : Nat
deriving DecidableEq, Repr

/-- The in-memory registry `self._status`: group name to ordered slot list,
as an insertion-ordered association list (Python dicts preserve insertion
order). -/
abbrev Registry := List (String × List ProcessInfo)

/-- First-match association lookup (`d[k]` / `k in d`). -/
def lookupA {β : Type} : List (String × β) → String → Option β
  | [], _ => none
  | (k, v) :: rest, key => if k = key then some v else lookupA rest key

/-- Python dict assignment `d[k] = v`: update the existing entry in place,
else append at the end (insertion order). -/
def setA {β : Type} : List (String × β) → String → β → List (String × β)
  | [], k, v => [(k, v)]
  | (k', v') :: rest, k, v =>
    if k' = k then (k', v) :: rest else (k', v') :: setA rest k v

/-- Python `d.setdefault(k, v)` restricted to its effect on the dict:
insert `(k, v)` at the end if `k` is absent, else leave the dict unchanged. -/
def ensureKey {β : Type} : List (String × β) → String → β → List (String × β)
  | [], k, v => [(k, v)]
  | (k', v') :: rest, k, v =>
    if k' = k then (k', v') :: rest else (k', v') :: ensureKey rest k v

/-- Stand-in for `hashlib.sha256(...).hexdigest()` (external library call).
Its concrete value is irrelevant to every claim below; it is modelled as the
identity on the group name. -/
def sha256hex (s : String) : String := s

/-- The slot's `unique_id`: `"{}.{}".format(sha256(group).hexdigest(), position)`. -/
def uniqueId (group : String) (position : Nat) : String :=
  sha256hex group ++ "." ++ toString position

/-- `CJavaPrefork._mkfifoname_unix`. -/
def mkfifoname (uid : String) : String := "control." ++ uid

/-- Result of launching one worker process (`subprocess.Popen` plus the
immediate `pipe.poll()`): the new pid, and `poll = none` when the process is
still running, `poll = some rc` when it already exited with code `rc`. -/
structure SpawnRes where
  pid : Nat
  poll : Option Int

/-- The `ChildProcessError` raised by `_run_jvm` ("Process '{}' exited
unexpectedly with return code {}"): it carries the command line and the
exit code. -/
structure LaunchErr where
  commandline : List String
  returncode : Int
deriving DecidableEq, Repr

/-- The two `ProcessLookupError`s raised by `exec_`. -/
inductive ExecErr where
  | groupNotFound : String → ExecErr
  | noIdleWorker : String → ExecErr
deriving DecidableEq, Repr

/-- Object state of `CJavaPrefork`: `_groups`, `_status`, the persisted
status file content, and the model's slot identity counter. -/
structure MState where
  java : String
  workingDirAbs : String
  dripJar : String
  groups : List (String × String)
  status : Registry
  file : List Char
  nextSid : Nat
deriving DecidableEq, Repr

/-- The worker argv built in `_run_jvm`:
`(java, *DEFAULT_OPTIONS, *args, "-classpath", classpath, DRIP_MAIN, unique_id, working_dir)`. -/
def argvOf (σ : MState) (classpath : String) (args : List String) (uid : String) : List String :=
  σ.java :: (DEFAULT_OPTIONS ++ args ++ ["-classpath", classpath, DRIP_MAIN, uid, σ.workingDirAbs])

/-- `" ".join(commandline)`. -/
def joinSpace (l : List String) : String := String.intercalate " " l

/-- Decimal digit character for `d < 10`. -/
def decChar (d : Nat) : Char := Char.ofNat (48 + d)

/-- Digits of `n`, most significant first; the fuel argument (any value
`≥ n`) only drives the structural recursion. -/
def natDigitsAux : Nat → Nat → List Char
  | 0, _ => []
  | fuel + 1, n => if n = 0 then [] else natDigitsAux fuel (n / 10) ++ [decChar (n % 10)]

/-- Decimal character rendering of a natural number (what `json.dump` prints
for the `pid` and `status` integers). -/
def natToChars (n : Nat) : List Char :=
  if n = 0 then ['0'] else natDigitsAux n n

/-- JSON string literal for an escape-free string: `"` + content + `"`. -/
def qChars (s : String) : List Char := '"' :: (s.data ++ ['"'])

/-- Serialization of one slot dict exactly as `json.dump` prints it with the
default separators: keys in insertion order
`pid, status, unique_id, control, commandline, classpath`. -/
def serializeSlotChars (p : ProcessInfo) : List Char :=
  '\x7b' :: ("\"pid\": ".data ++ natToChars p.pid
    ++ ", \"status\": ".data ++ natToChars p.status
    ++ ", \"unique_id\": ".data ++ qChars p.unique_id
    ++ ", \"control\": ".data ++ qChars p.control
    ++ ", \"commandline\": ".data ++ qChars p.commandline
    ++ ", \"classpath\": ".data ++ qChars p.classpath
    ++ "\x7d".data)

/-- Tail of a slot list serialization: `, <slot>` for each further slot. -/
def serializeSlotsAux : List ProcessInfo → List Char
  | [] => []
  | p :: rest => ',' :: ' ' :: (serializeSlotChars p ++ serializeSlotsAux rest)

/-- `json.dump` rendering of a slot list. -/
def serializeSlots : List ProcessInfo → List Char
  | [] => '[' :: [']']
  | p :: rest => '[' :: (serializeSlotChars p ++ serializeSlotsAux rest ++ [']'])

/-- `json.dump` rendering of one group entry `"name": [...]`. -/
def serializeEntry (e : String × List ProcessInfo) : List Char :=
  qChars e.1 ++ ": ".data ++ serializeSlots e.2

/-- Tail of the top-level object serialization. -/
def serializeGroupsAux : Registry → List Char
  | [] => []
  | e :: rest => ',' :: ' ' :: (serializeEntry e ++ serializeGroupsAux rest)

/-- `json.dump(self._status, fd)` with the default separators: the full wire
content written to the status file. -/
def serializeStatus : Registry → List Char
  | [] => '\x7b' :: ['\x7d']
  | e :: rest => '\x7b' :: (serializeEntry e ++ serializeGroupsAux rest ++ ['\x7d'])

/-- Bound on the parser fuel a registry document needs: one step per group
entry plus one per slot. -/
def regWeight (st : Registry) : Nat := st.foldr (fun e acc => 1 + e.2.length + acc) 0

/-- The file update the code performs on every persist:
`self._status_fd.seek(0, 0); json.dump(...)` — overwrite from offset zero
WITHOUT truncating, so a longer old tail survives. -/
def overwrite (old new : List Char) : List Char := new ++ old.drop new.length

/-- `CJavaPrefork._run_jvm` (Linux path).  `res` is the outcome of the
`subprocess.Popen` launch.  Returns the state after the call together with
the `ChildProcessError` when the immediate poll saw the process dead.
Filesystem side effects (stale log unlink, fifo creation) have no bearing on
any claim and are not tracked; note that `self._status.setdefault(group, [])`
runs before the launch, so a failed spawn still leaves the (possibly new,
possibly empty) group entry behind. -/
def run_jvm (σ : MState) (group classpath : String) (args : List String) (res : SpawnRes) :
    MState × Option LaunchErr :=
  let st0 := ensureKey σ.status group []
  let processes := (lookupA st0 group).getD []
  let uid := uniqueId group processes.length
  let fifoName := mkfifoname uid
  let commandline := argvOf σ classpath args uid
  match res.poll with
  | none =>
    let info : ProcessInfo := {
      pid := res.pid, status := STATUS_IDLE, unique_id := uid, control := fifoName,
      commandline := joinSpace commandline, classpath := classpath, sid := σ.nextSid }
    ({ σ with status := setA st0 group (processes ++ [info]), nextSid := σ.nextSid + 1 }, none)
  | some rc => ({ σ with status := st0 }, some ⟨commandline, rc⟩)

/-- Number of slots of group `g` whose status is `STATUS_IDLE` (the count
`prefork_jvm` subtracts from `n_instances`; a missing group counts zero via
the `KeyError` branch). -/
def countIdle (st : Registry) (g : String) : Nat :=
  (((lookupA st g).getD []).filter (fun p => p.status == STATUS_IDLE)).length

/-- Classpath resolution at the top of `prefork_jvm`: an explicit classpath
is extended with the drip JAR; else an existing group reuses its stored
classpath; else the drip JAR alone. -/
def resolveClasspath (σ : MState) (g : String) (cp : Option String) : String :=
  match cp with
  | some c => c ++ CLASSPATH_SEPARATOR ++ σ.dripJar
  | none =>
    match lookupA σ.groups g with
    | some existing => existing
    | none => σ.dripJar

/-- The `while idle_count > 0` loop of `prefork_jvm`: spawn `count` workers
strictly sequentially, stopping (and propagating the error) at the first
failed spawn.  `outs i` is the launch outcome of the `i`-th spawn of this
call. -/
def preforkLoop (g cp : String) (args : List String) (outs : Nat → SpawnRes) :
    Nat → Nat → MState → MState × Option LaunchErr
  | _, 0, σ => (σ, none)
  | i, count + 1, σ =>
    match run_jvm σ g cp args (outs i) with
    | (σ', none) => preforkLoop g cp args outs (i + 1) count σ'
    | (σ', some e) => (σ', some e)

/-- `CJavaPrefork.prefork_jvm`.  The persist (`seek(0); json.dump`) sits
after the spawn loop inside the `finally` block, so it runs only when no
spawn raised; a raising spawn propagates with the file untouched. -/
def prefork_jvm (σ : MState) (g : String) (cp : Option String) (n : Nat)
    (args : List String) (outs : Nat → SpawnRes) : MState × Option LaunchErr :=
  let ext := resolveClasspath σ g cp
  let σ1 := { σ with groups := setA σ.groups g ext }
  let deficit := n - countIdle σ1.status g
  match preforkLoop g ext args outs 0 deficit σ1 with
  | (σ2, none) => ({ σ2 with file := overwrite σ2.file (serializeStatus σ2.status) }, none)
  | (σ2, some e) => (σ2, some e)

/-- `"\u0000".join(l)` (also covers the `if ... else ""` collapse: the join
of the empty list is the empty string). -/
def nulJoin (l : List String) : String := String.intercalate "\u0000" l

/-- Environment rendering in `exec_`:
`"\u0000".join("=".join((k, v)) for k, v in env.items())`. -/
def envRender (env : List (String × String)) : String :=
  String.intercalate "\u0000" (env.map (fun kv => kv.1 ++ "=" ++ kv.2))

/-- One frame of `_writefifo`: `"{}:{},".format(len(line), line)`.  Note
that Python's `len` on `str` counts characters (code points), exactly as
`String.length` does here. -/
def frameOf (line : String) : String := toString line.length ++ ":" ++ line ++ ","

/-- `CJavaPrefork._writefifo` (Linux path): each line framed and the frames
written back to back into the slot's fifo; the sequential writes are
modelled as their concatenation. -/
def writefifo (data : List String) : String := String.join (data.map frameOf)

/-- The `for process_info in processes` loop body of `exec_`: find the first
slot with status `STATUS_IDLE`; on success return the updated list, the
selected slot's (pre-update) record, and the bytes written to its fifo. -/
def execLoop (main pargs sprops envs : String) :
    List ProcessInfo → Option (List ProcessInfo × ProcessInfo × String)
  | [] => none
  | p :: rest =>
    if p.status = STATUS_IDLE then
      some ({ p with status := STATUS_COMMAND_SENT } :: rest, p,
        writefifo [main, pargs, sprops, envs])
    else
      (execLoop main pargs sprops envs rest).map (fun t => (p :: t.1, t.2.1, t.2.2))

/-- `CJavaPrefork.exec_`.  Returns the state after the call, the result
(`pid` or the raised error), and the list of `(fifo path, bytes)` channel
writes performed. -/
def exec_ (σ : MState) (group main : String) (args sysprops : List String)
    (env : List (String × String)) :
    MState × Except ExecErr Nat × List (String × String) :=
  match lookupA σ.status group with
  | none => (σ, Except.error (ExecErr.groupNotFound group), [])
  | some processes =>
    let pargs := nulJoin args
    let sprops := nulJoin sysprops
    let envs := envRender env
    match execLoop main pargs sprops envs processes with
    | none => (σ, Except.error (ExecErr.noIdleWorker group), [])
    | some (processes', sel, msg) =>
      let st' := setA σ.status group processes'
      ({ σ with status := st', file := overwrite σ.file (serializeStatus st') },
        Except.ok sel.pid, [(sel.control, msg)])

/-- The reap pass of `update_status` on one group's slot list: collect the
dead slots (`to_reap`), then `processes.remove(item)` for each — Python's
`list.remove` deletes the first value-equal occurrence. -/
def reapGroup (alive : Nat → Bool) (ps : List ProcessInfo) : List ProcessInfo :=
  let toReap := ps.filter (fun p => !(alive p.pid))
  toReap.foldl (fun acc item => acc.erase item) ps

/-- `CJavaPrefork.update_status`: reap every slot whose process no longer
exists (per the liveness oracle `alive`), then persist unconditionally. -/
def update_status (σ : MState) (alive : Nat → Bool) : MState :=
  let st' := σ.status.map (fun e => (e.1, reapGroup alive e.2))
  { σ with status := st', file := overwrite σ.file (serializeStatus st') }

/-- One externally driven operation on the pool, with its oracle inputs. -/
inductive Op where
  | prefork : String → Option String → Nat → List String → (Nat → SpawnRes) → Op
  | exec : String → String → List String → List String → List (String × String) → Op
  | reconcile : (Nat → Bool) → Op

/-- Run one operation for its state effect (errors still leave their
post-raise state behind, as the Python object does). -/
def runOp (σ : MState) : Op → MState
  | Op.prefork g cp n args outs => (prefork_jvm σ g cp n args outs).1
  | Op.exec g m a s e => (exec_ σ g m a s e).1
  | Op.reconcile alive => update_status σ alive

/-- Run a sequence of operations. -/
def runOps (σ : MState) (ops : List Op) : MState := ops.foldl runOp σ

/-- All slots of the registry, groups in stored order. -/
def allSlots : Registry → List ProcessInfo
  | [] => []
  | e :: rest => e.2 ++ allSlots rest

/-- The slots carrying a given identity tag. -/
def slotsWithSid (st : Registry) (sid : Nat) : List ProcessInfo :=
  (allSlots st).filter (fun p => p.sid == sid)

/-- The statuses of the slots carrying a given identity tag. -/
def sidStatuses (st : Registry) (sid : Nat) : List Nat :=
  (slotsWithSid st sid).map (fun p => p.status)

/-! ### UTF-8 byte view of the channel writes

`_writefifo` encodes each frame with `.encode('utf8')`; the claims about the
wire format speak about the delivered bytes, so the UTF-8 encoding is spelled
out (bytes as `Nat` values). -/

/-- UTF-8 encoding of one code point. -/
def utf8Bytes (c : Char) : List Nat :=
  let n := c.toNat
  if n < 128 then [n]
  else if n < 2048 then [192 + n / 64, 128 + n % 64]
  else if n < 65536 then [224 + n / 4096, 128 + (n / 64) % 64, 128 + n % 64]
  else [240 + n / 262144, 128 + (n / 4096) % 64, 128 + (n / 64) % 64, 128 + n % 64]

/-- UTF-8 bytes of a string. -/
def strBytes (s : String) : List Nat := s.data.foldr (fun c acc => utf8Bytes c ++ acc) []

/-- Number of UTF-8 bytes of a string. -/
def utf8Len (s : String) : Nat := (strBytes s).length

/-- Modelled from the spec's words (for refinement comparison with the
code): one frame is "the decimal length of the field's UTF-8 bytes,
followed by ':', the field's UTF-8 bytes, and ','". -/
def specFrame (field : String) : List Nat :=
  strBytes (toString (utf8Len field)) ++ strBytes ":" ++ strBytes field ++ strBytes ","

/-- Modelled from the spec's words (for refinement comparison with the
code): the complete wire message as the spec describes it — four
concatenated `specFrame`s for `main_class`, NUL-joined `args`, NUL-joined
`system_properties` and `key=value`-rendered NUL-joined `environment`. -/
def specWireMessage (main : String) (args sysprops : List String)
    (env : List (String × String)) : List Nat :=
  specFrame main ++ specFrame (nulJoin args) ++ specFrame (nulJoin sysprops)
    ++ specFrame (envRender env)

/-! ### Reading the persisted file back

`__init__` reads the status file with `json.load(self._status_fd)` and, on
`FileNotFoundError` or `json.JSONDecodeError`, silently starts from an empty
registry.  `json.load` is the Python standard library; it is modelled here
by a parser for exactly the document grammar `json.dump` produces for the
registry (strings restricted to characters that `json.dump` emits verbatim,
see `jsonSafeChar`), failing — as `json.load` does with "Extra data" — when
non-whitespace input remains after the document. -/

/-- Characters `json.dump` (default `ensure_ascii=True`) writes into a
string literal without any escaping: printable ASCII except `"` and `\`. -/
def jsonSafeChar (c : Char) : Bool :=
  (32 ≤ c.toNat && c.toNat ≤ 126) && (!(c == '"') && !(c == '\\'))

/-- All characters of the string are escape-free under `json.dump`. -/
def jsonSafeStr (s : String) : Bool := s.data.all jsonSafeChar

/-- All string fields of the slot are escape-free. -/
def jsonSafeSlot (p : ProcessInfo) : Bool :=
  jsonSafeStr p.unique_id && jsonSafeStr p.control
    && jsonSafeStr p.commandline && jsonSafeStr p.classpath

/-- All strings occurring in the registry are escape-free. -/
def jsonSafeStatus (st : Registry) : Bool :=
  st.all (fun e => jsonSafeStr e.1 && e.2.all jsonSafeSlot)

/-- Consume an exact literal character sequence. -/
def parseLit : List Char → List Char → Option (List Char)
  | [], s => some s
  | c :: cs, d :: s => if d = c then parseLit cs s else none
  | _ :: _, [] => none

/-- Decimal digit value of a character, if it is a digit. -/
def digitVal (c : Char) : Option Nat :=
  if '0' ≤ c ∧ c ≤ '9' then some (c.toNat - 48) else none

/-- The head of the input, if any, is not a decimal digit (so a number
parse stops exactly there). -/
def noDigitHead : List Char → Prop
  | [] => True
  | c :: _ => digitVal c = none

/-- Consume further decimal digits, most significant first. -/
def parseNatAux (acc : Nat) : List Char → Nat × List Char
  | [] => (acc, [])
  | c :: r =>
    match digitVal c with
    | some d => parseNatAux (acc * 10 + d) r
    | none => (acc, c :: r)

/-- Parse a decimal natural number (at least one digit). -/
def parseNat : List Char → Option (Nat × List Char)
  | [] => none
  | c :: r =>
    match digitVal c with
    | some d => some (parseNatAux d r)
    | none => none

/-- Consume string-literal characters up to the closing quote. -/
def parseStrAux (acc : List Char) : List Char → Option (String × List Char)
  | [] => none
  | c :: r => if c = '"' then some (String.mk acc.reverse, r) else parseStrAux (c :: acc) r

/-- Parse a quoted string literal. -/
def parseQStr : List Char → Option (String × List Char)
  | '"' :: r => parseStrAux [] r
  | _ => none

/-- Parse one slot object; the parsed record gets the (non-serialized)
identity tag `0`. -/
def parseSlot (s : List Char) : Option (ProcessInfo × List Char) :=
  (parseLit "\x7b\"pid\": ".data s).bind fun s0 =>
  (parseNat s0).bind fun ps =>
  (parseLit ", \"status\": ".data ps.2).bind fun s1 =>
  (parseNat s1).bind fun ss =>
  (parseLit ", \"unique_id\": ".data ss.2).bind fun s2 =>
  (parseQStr s2).bind fun us =>
  (parseLit ", \"control\": ".data us.2).bind fun s3 =>
  (parseQStr s3).bind fun cs =>
  (parseLit ", \"commandline\": ".data cs.2).bind fun s4 =>
  (parseQStr s4).bind fun ms =>
  (parseLit ", \"classpath\": ".data ms.2).bind fun s5 =>
  (parseQStr s5).bind fun xs =>
  (parseLit "\x7d".data xs.2).bind fun s6 =>
  some ({ pid := ps.1, status := ss.1, unique_id := us.1, control := cs.1,
          commandline := ms.1, classpath := xs.1, sid := 0 }, s6)

/-- Parse the remaining slots of a slot array. -/
def parseSlotsTail (fuel : Nat) (acc : List ProcessInfo) (s : List Char) :
    Option (List ProcessInfo × List Char) :=
  match fuel with
  | 0 => none
  | fuel + 1 =>
    match s with
    | ']' :: r => some (acc.reverse, r)
    | ',' :: ' ' :: r => (parseSlot r).bind fun pr => parseSlotsTail fuel (pr.1 :: acc) pr.2
    | _ => none

/-- Parse a slot array. -/
def parseSlots (fuel : Nat) (s : List Char) : Option (List ProcessInfo × List Char) :=
  match s with
  | '[' :: ']' :: r => some ([], r)
  | '[' :: r => (parseSlot r).bind fun pr => parseSlotsTail fuel [pr.1] pr.2
  | _ => none

/-- Parse one group entry `"name": [...]`. -/
def parseEntry (fuel : Nat) (s : List Char) :
    Option ((String × List ProcessInfo) × List Char) :=
  (parseQStr s).bind fun gs =>
  (parseLit ": ".data gs.2).bind fun s0 =>
  (parseSlots fuel s0).bind fun ls =>
  some ((gs.1, ls.1), ls.2)

/-- Parse the remaining entries of the top-level object. -/
def parseGroupsTail (fuel : Nat) (acc : Registry) (s : List Char) :
    Option (Registry × List Char) :=
  match fuel with
  | 0 => none
  | fuel + 1 =>
    match s with
    | '\x7d' :: r => some (acc.reverse, r)
    | ',' :: ' ' :: r => (parseEntry fuel r).bind fun er => parseGroupsTail fuel (er.1 :: acc) er.2
    | _ => none

/-- Parse the top-level registry object. -/
def parseStatus (fuel : Nat) (s : List Char) : Option (Registry × List Char) :=
  match s with
  | '\x7b' :: '\x7d' :: r => some ([], r)
  | '\x7b' :: r => (parseEntry fuel r).bind fun er => parseGroupsTail fuel [er.1] er.2
  | _ => none

/-- JSON insignificant whitespace. -/
def isWS (c : Char) : Bool := c = ' ' || c = '\n' || c = '\t' || c = '\r'

/-- Model of `json.load` on the status file: parse one registry document
and fail ("Extra data") if non-whitespace content remains. -/
def jsonLoad (s : List Char) : Option Registry :=
  match parseStatus (s.length + 1) s with
  | some (st, rest) => if rest.all isWS then some st else none
  | none => none

/-- The load performed at construction: a file that fails to parse silently
yields the empty registry (the `json.JSONDecodeError` branch of
`__init__`). -/
def loadStatus (s : List Char) : Registry := (jsonLoad s).getD []

/-- The six persisted fields of a slot (everything except the model-only
identity tag). -/
def slotFields (p : ProcessInfo) : Nat × Nat × String × String × String × String :=
  (p.pid, p.status, p.unique_id, p.control, p.commandline, p.classpath)

/-- Group names, slot order and persisted slot fields of a registry. -/
def fieldsOf (st : Registry) :
    List (String × List (Nat × Nat × String × String × String × String)) :=
  st.map (fun e => (e.1, e.2.map slotFields))

/-- Clear a slot's identity tag (what a reload gives back). -/
def zeroSid (p : ProcessInfo) : ProcessInfo := { p with sid := 0 }

/-! ### Concrete states for witnesses and counterexamples -/

/-- A freshly constructed pool (no prior status file): empty registry, and
the file holds `"\x7b\x7d"` after the `update_status()` run at the end of
`__init__`. -/
def σ0 : MState :=
  { java := "java", workingDirAbs := "/work", dripJar := "/work/drip.jar",
    groups := [], status := [], file := "\x7b\x7d".data, nextSid := 0 }

/-- Launch oracle whose spawns all succeed with pid 100, 101, ... -/
def outsOk : Nat → SpawnRes := fun i => { pid := 100 + i, poll := none }

/-- Launch oracle whose first spawn succeeds and whose second spawn is
observed dead with exit code 3. -/
def outsFailSecond : Nat → SpawnRes := fun i =>
  if i = 0 then { pid := 100, poll := none } else { pid := 101, poll := some 3 }

/-- A concrete idle slot. -/
def slotA : ProcessInfo :=
  { pid := 100, status := 0, unique_id := "g.0", control := "control.g.0",
    commandline := "java", classpath := "/x.jar", sid := 0 }

/-- A concrete dispatched slot. -/
def slotB : ProcessInfo :=
  { pid := 101, status := 1, unique_id := "g.1", control := "control.g.1",
    commandline := "java", classpath := "/x.jar", sid := 1 }


/-- The slot record a successful `_run_jvm` appends, expressed as a function
of the pre-call state (the position is the group's current slot count). -/
def newSlot (σ : MState) (g cp : String) (args : List String) (pid : Nat) : ProcessInfo :=
  let uid := uniqueId g ((lookupA σ.status g).getD []).length
  { pid := pid, status := STATUS_IDLE, unique_id := uid, control := mkfifoname uid,
    commandline := joinSpace (argvOf σ cp args uid), classpath := cp, sid := σ.nextSid }

/-! ## Association-list lemmas -/

theorem lookupA_setA_eq {β : Type} (l : List (String × β)) (k : String) (v : β) :
    lookupA (setA l k v) k = some v := by
  induction l with
  | nil => simp [setA, lookupA]
  | cons e rest ih =>
    obtain ⟨k', v'⟩ := e
    by_cases h : k' = k <;> simp [setA, lookupA, h, ih]

theorem lookupA_setA_ne {β : Type} (l : List (String × β)) (k k' : String) (v : β)
    (h : k' ≠ k) : lookupA (setA l k v) k' = lookupA l k' := by
  have h' : ¬(k = k') := fun hh => h hh.symm
  induction l with
  | nil => simp [setA, lookupA, h']
  | cons e rest ih =>
    obtain ⟨a, b⟩ := e
    by_cases ha : a = k
    · subst ha
      simp [setA, lookupA, h']
    · simp [setA, lookupA, ha, ih]

theorem lookupA_ensureKey_eq {β : Type} (l : List (String × β)) (k : String) (v : β) :
    lookupA (ensureKey l k v) k = some ((lookupA l k).getD v) := by
  induction l with
  | nil => simp [ensureKey, lookupA]
  | cons e rest ih =>
    obtain ⟨a, b⟩ := e
    by_cases ha : a = k <;> simp [ensureKey, lookupA, ha, ih]

theorem lookupA_ensureKey_ne {β : Type} (l : List (String × β)) (k k' : String) (v : β)
    (h : k' ≠ k) : lookupA (ensureKey l k v) k' = lookupA l k' := by
  have h' : ¬(k = k') := fun hh => h hh.symm
  induction l with
  | nil => simp [ensureKey, lookupA, h']
  | cons e rest ih =>
    obtain ⟨a, b⟩ := e
    by_cases ha : a = k
    · subst ha
      simp [ensureKey, lookupA, h']
    · simp [ensureKey, lookupA, ha, ih]

/-! ## Characterizing the dispatch scan -/

theorem execLoop_eq_none_iff (main pargs sprops envs : String) (ps : List ProcessInfo) :
    execLoop main pargs sprops envs ps = none ↔ ∀ p ∈ ps, p.status ≠ STATUS_IDLE := by
  induction ps with
  | nil => simp [execLoop]
  | cons p rest ih =>
    by_cases h : p.status = STATUS_IDLE
    · simp only [execLoop, if_pos h]
      constructor
      · intro hc; exact absurd hc (by simp)
      · intro hall; exact absurd h (hall p (by simp))
    · simp only [execLoop, if_neg h]
      constructor
      · intro hc x hx
        rcases List.mem_cons.mp hx with rfl | hx'
        · exact h
        · exact (ih.mp (by simpa using hc)) x hx'
      · intro hall
        have h0 : execLoop main pargs sprops envs rest = none :=
          ih.mpr (fun x hx => hall x (List.mem_cons_of_mem _ hx))
        simp [h0]

theorem execLoop_first_idle (main pargs sprops envs : String)
    (pre : List ProcessInfo) (q : ProcessInfo) (post : List ProcessInfo)
    (hpre : ∀ r ∈ pre, r.status ≠ STATUS_IDLE) (hq : q.status = STATUS_IDLE) :
    execLoop main pargs sprops envs (pre ++ q :: post) =
      some (pre ++ { q with status := STATUS_COMMAND_SENT } :: post, q,
        writefifo [main, pargs, sprops, envs]) := by
  induction pre with
  | nil => simp [execLoop, hq]
  | cons r pre ih =>
    have hr := hpre r (by simp)
    have ih' := ih (fun x hx => hpre x (by simp [hx]))
    simp [execLoop, hr, ih']

theorem writefifo_four (a b c d : String) :
    writefifo [a, b, c, d] = frameOf a ++ frameOf b ++ frameOf c ++ frameOf d := by
  simp [writefifo, String.join]

theorem strBytes_append (a b : String) : strBytes (a ++ b) = strBytes a ++ strBytes b := by
  have hacc : ∀ (l : List Char) (X : List Nat),
      l.foldr (fun c acc => utf8Bytes c ++ acc) X
        = l.foldr (fun c acc => utf8Bytes c ++ acc) [] ++ X := by
    intro l
    induction l with
    | nil => intro X; simp
    | cons c l ih =>
      intro X
      simp only [List.foldr_cons]
      rw [ih X, List.append_assoc]
  simp only [strBytes, String.data_append, List.foldr_append]
  rw [hacc]

/-! ## Result shapes of `exec_` -/

theorem exec_eq_of_lookup_none (σ : MState) (g main : String)
    (args sysprops : List String) (env : List (String × String))
    (hlk : lookupA σ.status g = none) :
    exec_ σ g main args sysprops env = (σ, Except.error (ExecErr.groupNotFound g), []) := by
  simp [exec_, hlk]

theorem exec_eq_of_no_idle (σ : MState) (g main : String)
    (args sysprops : List String) (env : List (String × String))
    (ps : List ProcessInfo)
    (hlk : lookupA σ.status g = some ps)
    (hloop : execLoop main (nulJoin args) (nulJoin sysprops) (envRender env) ps = none) :
    exec_ σ g main args sysprops env = (σ, Except.error (ExecErr.noIdleWorker g), []) := by
  simp [exec_, hlk, hloop]

theorem exec_eq_of_found (σ : MState) (g main : String)
    (args sysprops : List String) (env : List (String × String))
    (ps l : List ProcessInfo) (q : ProcessInfo) (m : String)
    (hlk : lookupA σ.status g = some ps)
    (hloop : execLoop main (nulJoin args) (nulJoin sysprops) (envRender env) ps
      = some (l, q, m)) :
    exec_ σ g main args sysprops env =
      ({ σ with status := setA σ.status g l, file := overwrite σ.file (serializeStatus (setA σ.status g l)) },
        Except.ok q.pid, [(q.control, m)]) := by
  simp [exec_, hlk, hloop]

/-! ## Claim theorems: dispatch -/

/-- C3: when the group holds at least one Idle slot, `exec_` selects the
first Idle slot in stored list order (here: decomposition `pre ++ q :: post`
with every slot of `pre` non-Idle and `q` Idle), returns that slot's pid,
flips exactly that slot to CommandSent, and leaves every other slot — in
this group and in every other group — unchanged. -/
theorem exec_selects_first_idle (σ : MState) (g main : String)
    (args sysprops : List String) (env : List (String × String))
    (pre : List ProcessInfo) (q : ProcessInfo) (post : List ProcessInfo)
    (hps : lookupA σ.status g = some (pre ++ q :: post))
    (hpre : ∀ r ∈ pre, r.status ≠ STATUS_IDLE)
    (hq : q.status = STATUS_IDLE) :
    (exec_ σ g main args sysprops env).2.1 = Except.ok q.pid ∧
    lookupA (exec_ σ g main args sysprops env).1.status g =
      some (pre ++ { q with status := STATUS_COMMAND_SENT } :: post) ∧
    (∀ g', g' ≠ g →
      lookupA (exec_ σ g main args sysprops env).1.status g' = lookupA σ.status g') := by
  have hloop := execLoop_first_idle main (nulJoin args) (nulJoin sysprops)
    (envRender env) pre q post hpre hq
  rw [exec_eq_of_found σ g main args sysprops env _ _ q _ hps hloop]
  refine ⟨rfl, ?_, ?_⟩
  · simp [lookupA_setA_eq]
  · intro g' hg'
    simp [lookupA_setA_ne _ _ _ _ hg']

/-- C3 witness: concrete dispatch against a group whose first slot is
CommandSent and whose second is Idle. -/
theorem exec_selects_first_idle_witness :
    (exec_ { σ0 with status := [("g", [slotB, slotA])] } "g" "com.Main" [] [] []).2.1 =
      Except.ok slotA.pid ∧
    lookupA (exec_ { σ0 with status := [("g", [slotB, slotA])] } "g" "com.Main" [] [] []).1.status "g" =
      some ([slotB] ++ { slotA with status := STATUS_COMMAND_SENT } :: []) ∧
    (∀ g', g' ≠ "g" →
      lookupA (exec_ { σ0 with status := [("g", [slotB, slotA])] } "g" "com.Main" [] [] []).1.status g' =
        lookupA ({ σ0 with status := [("g", [slotB, slotA])] } : MState).status g') :=
  exec_selects_first_idle { σ0 with status := [("g", [slotB, slotA])] } "g" "com.Main"
    [] [] [] [slotB] slotA [] (by rfl) (by decide) (by decide)

/-- C4 counterexample: the state reached by spawning one worker and then
reaping it (its process died) has group "g" present with no slots at all,
and a dispatch against it raises NoIdleWorker — not GroupNotFound as the
claim requires for a group with no slots at all. -/
theorem exec_error_taxonomy_cex :
    lookupA (runOps σ0 [Op.prefork "g" (some "/x.jar") 1 [] outsOk,
        Op.reconcile (fun _ => false)]).status "g" = some [] ∧
    (exec_ (runOps σ0 [Op.prefork "g" (some "/x.jar") 1 [] outsOk,
        Op.reconcile (fun _ => false)]) "g" "com.Main" [] [] []).2.1 =
      Except.error (ExecErr.noIdleWorker "g") := by
  constructor <;> rfl

/-- C4 (amended): `exec_` fails with GroupNotFound exactly when the group
has no entry in the registry; it fails with NoIdleWorker exactly when the
group has an entry (possibly an empty slot list) none of whose slots is
Idle; in every other case — an entry with at least one Idle slot — it
succeeds. -/
theorem exec_error_taxonomy (σ : MState) (g main : String)
    (args sysprops : List String) (env : List (String × String)) :
    ((exec_ σ g main args sysprops env).2.1 = Except.error (ExecErr.groupNotFound g) ↔
      lookupA σ.status g = none) ∧
    ((exec_ σ g main args sysprops env).2.1 = Except.error (ExecErr.noIdleWorker g) ↔
      ∃ ps, lookupA σ.status g = some ps ∧ ∀ p ∈ ps, p.status ≠ STATUS_IDLE) ∧
    ((∃ pid, (exec_ σ g main args sysprops env).2.1 = Except.ok pid) ↔
      ∃ ps, lookupA σ.status g = some ps ∧ ∃ p ∈ ps, p.status = STATUS_IDLE) := by
  cases hlk : lookupA σ.status g with
  | none =>
    rw [exec_eq_of_lookup_none σ g main args sysprops env hlk]
    refine ⟨by simp, ?_, ?_⟩
    · constructor
      · intro hc; exact absurd hc (by simp)
      · rintro ⟨ps, hps, -⟩
        exact absurd hps (by simp)
    · constructor
      · rintro ⟨pid, hpid⟩; exact absurd hpid (by simp)
      · rintro ⟨ps, hps, -⟩
        exact absurd hps (by simp)
  | some ps =>
    cases hloop : execLoop main (nulJoin args) (nulJoin sysprops) (envRender env) ps with
    | none =>
      have hall := (execLoop_eq_none_iff _ _ _ _ ps).mp hloop
      rw [exec_eq_of_no_idle σ g main args sysprops env ps hlk hloop]
      refine ⟨by simp, ?_, ?_⟩
      · exact ⟨fun _ => ⟨ps, rfl, hall⟩, fun _ => rfl⟩
      · constructor
        · rintro ⟨pid, hpid⟩; exact absurd hpid (by simp)
        · rintro ⟨ps', hps', p, hp, hidle⟩
          injection hps' with hps'; subst hps'
          exact absurd hidle (hall p hp)
    | some t =>
      obtain ⟨l, q, m⟩ := t
      have hnn : ¬(∀ p ∈ ps, p.status ≠ STATUS_IDLE) := by
        intro hall
        rw [(execLoop_eq_none_iff _ _ _ _ ps).mpr hall] at hloop
        exact absurd hloop (by simp)
      push_neg at hnn
      rw [exec_eq_of_found σ g main args sysprops env ps l q m hlk hloop]
      refine ⟨by simp, ?_, ?_⟩
      · constructor
        · intro hc; exact absurd hc (by simp)
        · rintro ⟨ps', hps', hall⟩
          injection hps' with hps'; subst hps'
          obtain ⟨p, hp, hidle⟩ := hnn
          exact absurd hidle (hall p hp)
      · exact ⟨fun _ => ⟨ps, rfl, hnn⟩, fun _ => ⟨q.pid, rfl⟩⟩

/-- C10: when `exec_` raises (unknown group or no Idle slot), the operation
is atomic — the whole object state (registry statuses and persisted file)
is unchanged and no bytes were written to any channel. -/
theorem exec_failure_atomic (σ : MState) (g main : String)
    (args sysprops : List String) (env : List (String × String)) (e : ExecErr)
    (h : (exec_ σ g main args sysprops env).2.1 = Except.error e) :
    (exec_ σ g main args sysprops env).1 = σ ∧
    (exec_ σ g main args sysprops env).2.2 = [] := by
  cases hlk : lookupA σ.status g with
  | none => rw [exec_eq_of_lookup_none σ g main args sysprops env hlk]; exact ⟨rfl, rfl⟩
  | some ps =>
    cases hloop : execLoop main (nulJoin args) (nulJoin sysprops) (envRender env) ps with
    | none => rw [exec_eq_of_no_idle σ g main args sysprops env ps hlk hloop]; exact ⟨rfl, rfl⟩
    | some t =>
      obtain ⟨l, q, m⟩ := t
      rw [exec_eq_of_found σ g main args sysprops env ps l q m hlk hloop] at h
      exact absurd h (by simp)

/-- C10 witness: a dispatch against the empty registry raises GroupNotFound
and changes nothing. -/
theorem exec_failure_atomic_witness :
    (exec_ σ0 "g" "com.Main" [] [] []).1 = σ0 ∧
    (exec_ σ0 "g" "com.Main" [] [] []).2.2 = [] :=
  exec_failure_atomic σ0 "g" "com.Main" [] [] [] (ExecErr.groupNotFound "g") (by rfl)

/-- C1 counterexample: dispatching main class "é" (one character, two UTF-8
bytes) on a one-slot group delivers the bytes of "1:é,0:,0:,0:," — the
length prefix is the character count 1, not the UTF-8 byte count 2 that the
claim's framing demands, so the delivered bytes differ from the claimed
wire message. -/
theorem wire_format_cex :
    (exec_ (prefork_jvm σ0 "g" (some "/x.jar") 1 [] outsOk).1 "g" "é" [] [] []).2.2 =
      [("control.g.0", "1:é,0:,0:,0:,")] ∧
    strBytes "1:é,0:,0:,0:," ≠ specWireMessage "é" [] [] [] := by
  constructor
  · rfl
  · decide

/-- C1 (amended): the complete wire message delivered on a dispatch is
exactly four concatenated frames in the fixed order main_class, args,
system_properties, environment — each frame being the decimal count of the
field's characters (code points; this equals the UTF-8 byte count only for
ASCII fields), then ':', the field's text, then ',' — with list sub-fields
NUL-delimited and environment entries rendered as key=value; the delivered
byte sequence is the UTF-8 encoding of that message, frame bytes
concatenated in the same order. -/
theorem wire_format (σ : MState) (g main : String)
    (args sysprops : List String) (env : List (String × String))
    (pre : List ProcessInfo) (q : ProcessInfo) (post : List ProcessInfo)
    (hps : lookupA σ.status g = some (pre ++ q :: post))
    (hpre : ∀ r ∈ pre, r.status ≠ STATUS_IDLE)
    (hq : q.status = STATUS_IDLE) :
    (exec_ σ g main args sysprops env).2.2 =
      [(q.control, frameOf main ++ frameOf (nulJoin args) ++ frameOf (nulJoin sysprops)
        ++ frameOf (envRender env))] ∧
    strBytes (frameOf main ++ frameOf (nulJoin args) ++ frameOf (nulJoin sysprops)
        ++ frameOf (envRender env)) =
      strBytes (frameOf main) ++ strBytes (frameOf (nulJoin args))
        ++ strBytes (frameOf (nulJoin sysprops)) ++ strBytes (frameOf (envRender env)) := by
  have hloop := execLoop_first_idle main (nulJoin args) (nulJoin sysprops)
    (envRender env) pre q post hpre hq
  constructor
  · rw [exec_eq_of_found σ g main args sysprops env _ _ q _ hps hloop, writefifo_four]
  · simp [strBytes_append]

/-- C1 witness: the amended frame format at a concrete dispatch. -/
theorem wire_format_witness :
    (exec_ { σ0 with status := [("g", [slotA])] } "g" "com.Main" ["-v", "-x"] ["a=1"]
        [("HOME", "/root")]).2.2 =
      [(slotA.control, frameOf "com.Main" ++ frameOf (nulJoin ["-v", "-x"])
        ++ frameOf (nulJoin ["a=1"]) ++ frameOf (envRender [("HOME", "/root")]))] ∧
    strBytes (frameOf "com.Main" ++ frameOf (nulJoin ["-v", "-x"])
        ++ frameOf (nulJoin ["a=1"]) ++ frameOf (envRender [("HOME", "/root")])) =
      strBytes (frameOf "com.Main") ++ strBytes (frameOf (nulJoin ["-v", "-x"]))
        ++ strBytes (frameOf (nulJoin ["a=1"]))
        ++ strBytes (frameOf (envRender [("HOME", "/root")])) :=
  wire_format { σ0 with status := [("g", [slotA])] } "g" "com.Main" ["-v", "-x"] ["a=1"]
    [("HOME", "/root")] [] slotA [] (by rfl) (by simp) (by decide)

/-! ## Spawn and prefork lemmas -/

theorem getD_lookupA_ensureKey (st : Registry) (g : String) :
    (lookupA (ensureKey st g ([] : List ProcessInfo)) g).getD [] = (lookupA st g).getD [] := by
  simp [lookupA_ensureKey_eq]

theorem run_jvm_poll_none (σ : MState) (g cp : String) (args : List String) (res : SpawnRes)
    (h : res.poll = none) :
    run_jvm σ g cp args res =
      ({ σ with status := setA (ensureKey σ.status g []) g (((lookupA σ.status g).getD []) ++ [newSlot σ g cp args res.pid]), nextSid := σ.nextSid + 1 }, none) := by
  simp [run_jvm, h, newSlot, lookupA_ensureKey_eq]

theorem run_jvm_poll_some (σ : MState) (g cp : String) (args : List String) (res : SpawnRes)
    (rc : Int) (h : res.poll = some rc) :
    run_jvm σ g cp args res =
      ({ σ with status := ensureKey σ.status g [] },
        some ⟨argvOf σ cp args (uniqueId g ((lookupA σ.status g).getD []).length), rc⟩) := by
  simp [run_jvm, h, lookupA_ensureKey_eq]

theorem run_jvm_file (σ : MState) (g cp : String) (args : List String) (res : SpawnRes) :
    (run_jvm σ g cp args res).1.file = σ.file := by
  cases h : res.poll with
  | none => rw [run_jvm_poll_none σ g cp args res h]
  | some rc => rw [run_jvm_poll_some σ g cp args res rc h]

theorem preforkLoop_file (g cp : String) (args : List String) (outs : Nat → SpawnRes) :
    ∀ (c i : Nat) (σ : MState), (preforkLoop g cp args outs i c σ).1.file = σ.file := by
  intro c
  induction c with
  | zero => intro i σ; rfl
  | succ c ih =>
    intro i σ
    have hfile := run_jvm_file σ g cp args (outs i)
    rcases hr : run_jvm σ g cp args (outs i) with ⟨σ', err⟩
    rw [hr] at hfile
    cases err with
    | none => simp only [preforkLoop, hr]; rw [ih (i + 1) σ']; exact hfile
    | some e => simp only [preforkLoop, hr]; exact hfile

theorem preforkLoop_all_ok (g cp : String) (args : List String) (outs : Nat → SpawnRes)
    (hok : ∀ j, (outs j).poll = none) :
    ∀ (c i : Nat) (σ : MState),
    ∃ news : List ProcessInfo,
      (preforkLoop g cp args outs i c σ).2 = none ∧
      ((lookupA (preforkLoop g cp args outs i c σ).1.status g).getD []) =
        ((lookupA σ.status g).getD []) ++ news ∧
      news.length = c ∧
      (∀ p ∈ news, p.status = STATUS_IDLE) := by
  intro c
  induction c with
  | zero =>
    intro i σ
    exact ⟨[], rfl, by simp [preforkLoop], rfl, by simp⟩
  | succ c ih =>
    intro i σ
    have hrun := run_jvm_poll_none σ g cp args (outs i) (hok i)
    set σ' : MState := { σ with status := setA (ensureKey σ.status g []) g (((lookupA σ.status g).getD []) ++ [newSlot σ g cp args (outs i).pid]), nextSid := σ.nextSid + 1 } with hσ'
    obtain ⟨news, h2, h3, h4, h5⟩ := ih (i + 1) σ'
    have hstep : preforkLoop g cp args outs i (c + 1) σ = preforkLoop g cp args outs (i + 1) c σ' := by
      simp only [preforkLoop, hrun]
    refine ⟨newSlot σ g cp args (outs i).pid :: news, ?_, ?_, by simp [h4], ?_⟩
    · rw [hstep]; exact h2
    · rw [hstep, h3]
      have hl : (lookupA σ'.status g).getD [] =
          ((lookupA σ.status g).getD []) ++ [newSlot σ g cp args (outs i).pid] := by
        rw [hσ']; simp [lookupA_setA_eq]
      rw [hl, List.append_assoc]
      rfl
    · intro p hp
      rcases List.mem_cons.mp hp with rfl | hp'
      · rfl
      · exact h5 p hp'

theorem preforkLoop_fail (g cp : String) (args : List String) (outs : Nat → SpawnRes) (rc : Int) :
    ∀ (k c i : Nat) (σ : MState), k < c →
    (∀ j, j < k → (outs (i + j)).poll = none) →
    ((outs (i + k)).poll = some rc) →
    ∃ news : List ProcessInfo,
      (preforkLoop g cp args outs i c σ).2 =
        some ⟨argvOf σ cp args (uniqueId g (((lookupA σ.status g).getD []).length + k)), rc⟩ ∧
      ((lookupA (preforkLoop g cp args outs i c σ).1.status g).getD []) =
        ((lookupA σ.status g).getD []) ++ news ∧
      news.length = k := by
  intro k
  induction k with
  | zero =>
    intro c i σ hc h1 h2
    cases c with
    | zero => omega
    | succ c =>
      have hrun := run_jvm_poll_some σ g cp args (outs i) rc (by simpa using h2)
      refine ⟨[], ?_, ?_, rfl⟩
      · simp only [preforkLoop, hrun]
        simp
      · simp only [preforkLoop, hrun]
        simp [getD_lookupA_ensureKey]
  | succ k ih =>
    intro c i σ hc h1 h2
    cases c with
    | zero => omega
    | succ c =>
      have hrun := run_jvm_poll_none σ g cp args (outs i) (by simpa using h1 0 (by omega))
      set σ' : MState := { σ with status := setA (ensureKey σ.status g []) g (((lookupA σ.status g).getD []) ++ [newSlot σ g cp args (outs i).pid]), nextSid := σ.nextSid + 1 } with hσ'
      have hstep : preforkLoop g cp args outs i (c + 1) σ = preforkLoop g cp args outs (i + 1) c σ' := by
        simp only [preforkLoop, hrun]
      have h1' : ∀ j, j < k → (outs (i + 1 + j)).poll = none := by
        intro j hj
        have := h1 (j + 1) (by omega)
        rwa [show i + (j + 1) = i + 1 + j by omega] at this
      have h2' : (outs (i + 1 + k)).poll = some rc := by
        rwa [show i + (k + 1) = i + 1 + k by omega] at h2
      obtain ⟨news, g1, g2, g3⟩ := ih c (i + 1) σ' (by omega) h1' h2'
      have hl : (lookupA σ'.status g).getD [] =
          ((lookupA σ.status g).getD []) ++ [newSlot σ g cp args (outs i).pid] := by
        rw [hσ']; simp [lookupA_setA_eq]
      refine ⟨newSlot σ g cp args (outs i).pid :: news, ?_, ?_, by simp [g3]⟩
      · rw [hstep, g1, hl]
        have harith : (((lookupA σ.status g).getD []) ++ [newSlot σ g cp args (outs i).pid]).length + k
            = ((lookupA σ.status g).getD []).length + (k + 1) := by
          simp only [List.length_append, List.length_cons, List.length_nil]
          omega
        rw [harith, hσ']
        simp [argvOf]
      · rw [hstep, g2, hl, List.append_assoc]
        rfl

theorem prefork_jvm_of_loop_ok (σ : MState) (g : String) (cp : Option String) (n : Nat)
    (args : List String) (outs : Nat → SpawnRes) (σ2 : MState)
    (h : preforkLoop g (resolveClasspath σ g cp) args outs 0 (n - countIdle σ.status g)
      { σ with groups := setA σ.groups g (resolveClasspath σ g cp) } = (σ2, none)) :
    prefork_jvm σ g cp n args outs =
      ({ σ2 with file := overwrite σ2.file (serializeStatus σ2.status) }, none) := by
  simp only [prefork_jvm]
  rw [h]

theorem prefork_jvm_of_loop_fail (σ : MState) (g : String) (cp : Option String) (n : Nat)
    (args : List String) (outs : Nat → SpawnRes) (σ2 : MState) (e : LaunchErr)
    (h : preforkLoop g (resolveClasspath σ g cp) args outs 0 (n - countIdle σ.status g)
      { σ with groups := setA σ.groups g (resolveClasspath σ g cp) } = (σ2, some e)) :
    prefork_jvm σ g cp n args outs = (σ2, some e) := by
  simp only [prefork_jvm]
  rw [h]

theorem countIdle_filter_append (old news : List ProcessInfo)
    (h : ∀ p ∈ news, p.status = STATUS_IDLE) :
    ((old ++ news).filter (fun p => p.status == STATUS_IDLE)).length =
      (old.filter (fun p => p.status == STATUS_IDLE)).length + news.length := by
  rw [List.filter_append, List.length_append]
  have hself : news.filter (fun p => p.status == STATUS_IDLE) = news :=
    List.filter_eq_self.mpr (fun p hp => by simp [h p hp])
  rw [hself]

/-! ## Claim theorems: ensure / spawn -/

/-- C2: a fully successful `prefork_jvm` call spawns exactly
`n - countIdle` new slots — `Nat` subtraction, i.e. `max(0, n − idle)`,
where only slots with status Idle are counted (CommandSent slots never
count toward idle capacity) — each spawned slot is Idle, and afterwards the
group holds at least `n` Idle slots. -/
theorem prefork_ensures_idle (σ : MState) (g : String) (cp : Option String) (n : Nat)
    (args : List String) (outs : Nat → SpawnRes)
    (hok : ∀ j, (outs j).poll = none) :
    (prefork_jvm σ g cp n args outs).2 = none ∧
    ∃ news : List ProcessInfo,
      ((lookupA (prefork_jvm σ g cp n args outs).1.status g).getD []) =
        ((lookupA σ.status g).getD []) ++ news ∧
      news.length = n - countIdle σ.status g ∧
      (∀ p ∈ news, p.status = STATUS_IDLE) ∧
      n ≤ countIdle (prefork_jvm σ g cp n args outs).1.status g := by
  obtain ⟨news, h1, h2, h3, h4⟩ := preforkLoop_all_ok g (resolveClasspath σ g cp) args outs hok
    (n - countIdle σ.status g) 0 { σ with groups := setA σ.groups g (resolveClasspath σ g cp) }
  rcases hres : preforkLoop g (resolveClasspath σ g cp) args outs 0 (n - countIdle σ.status g)
    { σ with groups := setA σ.groups g (resolveClasspath σ g cp) } with ⟨σ2, err⟩
  rw [hres] at h1 h2
  simp only at h1 h2
  subst h1
  have hpf := prefork_jvm_of_loop_ok σ g cp n args outs σ2 hres
  constructor
  · rw [hpf]
  · refine ⟨news, ?_, h3, h4, ?_⟩
    · rw [hpf]
      exact h2
    · rw [hpf]
      show n ≤ countIdle σ2.status g
      simp only [countIdle]
      rw [h2, countIdle_filter_append _ _ h4, h3]
      have hA : (((lookupA σ.status g).getD []).filter (fun p => p.status == STATUS_IDLE)).length
          = countIdle σ.status g := rfl
      rw [hA]
      omega

/-- C2 witness: ensuring two instances on a fresh group spawns two Idle
slots. -/
theorem prefork_ensures_idle_witness :
    (prefork_jvm σ0 "g" (some "/x.jar") 2 [] outsOk).2 = none ∧
    ∃ news : List ProcessInfo,
      ((lookupA (prefork_jvm σ0 "g" (some "/x.jar") 2 [] outsOk).1.status "g").getD []) =
        ((lookupA σ0.status "g").getD []) ++ news ∧
      news.length = 2 - countIdle σ0.status "g" ∧
      (∀ p ∈ news, p.status = STATUS_IDLE) ∧
      2 ≤ countIdle (prefork_jvm σ0 "g" (some "/x.jar") 2 [] outsOk).1.status "g" :=
  prefork_ensures_idle σ0 "g" (some "/x.jar") 2 [] outsOk (fun _ => rfl)

/-- C5: if the (k+1)-st spawn of an ensure call (index k inside the
deficit) is observed dead by the immediate post-launch poll, the whole
call fails with the launch error carrying that spawn's command line and
exit code, the k slots spawned earlier in the same call remain registered
in the in-memory Registry (partial success is visible, not rolled back),
and the persisted file is untouched. -/
theorem prefork_launch_failure (σ : MState) (g : String) (cp : Option String) (n : Nat)
    (args : List String) (outs : Nat → SpawnRes) (k : Nat) (rc : Int)
    (hk : k < n - countIdle σ.status g)
    (h1 : ∀ j, j < k → (outs j).poll = none)
    (h2 : (outs k).poll = some rc) :
    ∃ news : List ProcessInfo,
      (prefork_jvm σ g cp n args outs).2 =
        some ⟨argvOf σ (resolveClasspath σ g cp) args
          (uniqueId g (((lookupA σ.status g).getD []).length + k)), rc⟩ ∧
      ((lookupA (prefork_jvm σ g cp n args outs).1.status g).getD []) =
        ((lookupA σ.status g).getD []) ++ news ∧
      news.length = k ∧
      (prefork_jvm σ g cp n args outs).1.file = σ.file := by
  have h1' : ∀ j, j < k → (outs (0 + j)).poll = none := by
    intro j hj; simpa using h1 j hj
  have h2' : (outs (0 + k)).poll = some rc := by simpa using h2
  obtain ⟨news, g1, g2, g3⟩ := preforkLoop_fail g (resolveClasspath σ g cp) args outs rc k
    (n - countIdle σ.status g) 0 { σ with groups := setA σ.groups g (resolveClasspath σ g cp) }
    hk h1' h2'
  have hfile := preforkLoop_file g (resolveClasspath σ g cp) args outs (n - countIdle σ.status g) 0
    { σ with groups := setA σ.groups g (resolveClasspath σ g cp) }
  rcases hres : preforkLoop g (resolveClasspath σ g cp) args outs 0 (n - countIdle σ.status g)
    { σ with groups := setA σ.groups g (resolveClasspath σ g cp) } with ⟨σ2, err⟩
  rw [hres] at g1 g2 hfile
  simp only at g1 g2 hfile
  subst g1
  have hpf := prefork_jvm_of_loop_fail σ g cp n args outs σ2 _ hres
  refine ⟨news, ?_, ?_, g3, ?_⟩
  · rw [hpf]
    simp [argvOf]
  · rw [hpf]
    exact g2
  · rw [hpf]
    exact hfile

/-- C5 witness: a two-spawn ensure whose second spawn dies immediately with
exit code 3. -/
theorem prefork_launch_failure_witness :
    ∃ news : List ProcessInfo,
      (prefork_jvm σ0 "g" (some "/x.jar") 2 [] outsFailSecond).2 =
        some ⟨argvOf σ0 (resolveClasspath σ0 "g" (some "/x.jar")) []
          (uniqueId "g" (((lookupA σ0.status "g").getD []).length + 1)), 3⟩ ∧
      ((lookupA (prefork_jvm σ0 "g" (some "/x.jar") 2 [] outsFailSecond).1.status "g").getD []) =
        ((lookupA σ0.status "g").getD []) ++ news ∧
      news.length = 1 ∧
      (prefork_jvm σ0 "g" (some "/x.jar") 2 [] outsFailSecond).1.file = σ0.file :=
  prefork_launch_failure σ0 "g" (some "/x.jar") 2 [] outsFailSecond 1 3 (by decide)
    (fun j hj => by
      have hj0 : j = 0 := by omega
      subst hj0; rfl)
    (by rfl)

/-- C6 counterexample: an ensure call whose second spawn fails returns (by
raising) with the first spawned slot registered in the in-memory Registry
while the persisted file is untouched — the individual spawn never
persisted, so the operation's effect is applied in memory but absent from
the persisted file. -/
theorem persistence_discipline_cex :
    (prefork_jvm σ0 "g" (some "/x.jar") 2 [] outsFailSecond).2 ≠ none ∧
    ((lookupA (prefork_jvm σ0 "g" (some "/x.jar") 2 [] outsFailSecond).1.status "g").getD []).length = 1 ∧
    (prefork_jvm σ0 "g" (some "/x.jar") 2 [] outsFailSecond).1.file = σ0.file ∧
    (prefork_jvm σ0 "g" (some "/x.jar") 2 [] outsFailSecond).1.file ≠
      serializeStatus (prefork_jvm σ0 "g" (some "/x.jar") 2 [] outsFailSecond).1.status :=
  ⟨by decide, by rfl, by rfl, by decide⟩

/-- C6 (amended): reconcile persists the whole registry (overwriting the
file from offset zero) before returning; a dispatch that selects a slot
persists before returning; a fully successful ensure persists once, after
all its spawns; but an individual spawn does not persist, so an ensure call
that raises mid-way returns with its earlier spawns applied in memory and
absent from the persisted file, whose content is untouched by the failing
call. -/
theorem persistence_discipline :
    (∀ (σ : MState) (alive : Nat → Bool),
      (update_status σ alive).file =
        overwrite σ.file (serializeStatus (update_status σ alive).status)) ∧
    (∀ (σ : MState) (g main : String) (args sysprops : List String)
      (env : List (String × String)) (pid : Nat),
      (exec_ σ g main args sysprops env).2.1 = Except.ok pid →
      (exec_ σ g main args sysprops env).1.file =
        overwrite σ.file (serializeStatus (exec_ σ g main args sysprops env).1.status)) ∧
    (∀ (σ : MState) (g : String) (cp : Option String) (n : Nat) (args : List String)
      (outs : Nat → SpawnRes),
      (prefork_jvm σ g cp n args outs).2 = none →
      (prefork_jvm σ g cp n args outs).1.file =
        overwrite σ.file (serializeStatus (prefork_jvm σ g cp n args outs).1.status)) ∧
    (∀ (σ : MState) (g : String) (cp : Option String) (n : Nat) (args : List String)
      (outs : Nat → SpawnRes) (e : LaunchErr),
      (prefork_jvm σ g cp n args outs).2 = some e →
      (prefork_jvm σ g cp n args outs).1.file = σ.file) := by
  refine ⟨fun σ alive => rfl, ?_, ?_, ?_⟩
  · intro σ g main args sysprops env pid h
    cases hlk : lookupA σ.status g with
    | none =>
      rw [exec_eq_of_lookup_none σ g main args sysprops env hlk] at h
      exact absurd h (by simp)
    | some ps =>
      cases hloop : execLoop main (nulJoin args) (nulJoin sysprops) (envRender env) ps with
      | none =>
        rw [exec_eq_of_no_idle σ g main args sysprops env ps hlk hloop] at h
        exact absurd h (by simp)
      | some t =>
        obtain ⟨l, q, m⟩ := t
        rw [exec_eq_of_found σ g main args sysprops env ps l q m hlk hloop]
  · intro σ g cp n args outs h
    have hfile := preforkLoop_file g (resolveClasspath σ g cp) args outs (n - countIdle σ.status g)
      0 { σ with groups := setA σ.groups g (resolveClasspath σ g cp) }
    rcases hres : preforkLoop g (resolveClasspath σ g cp) args outs 0 (n - countIdle σ.status g)
      { σ with groups := setA σ.groups g (resolveClasspath σ g cp) } with ⟨σ2, err⟩
    rw [hres] at hfile
    simp only at hfile
    cases err with
    | none =>
      rw [prefork_jvm_of_loop_ok σ g cp n args outs σ2 hres]
      show overwrite σ2.file (serializeStatus σ2.status) = overwrite σ.file (serializeStatus σ2.status)
      rw [hfile]
    | some e =>
      rw [prefork_jvm_of_loop_fail σ g cp n args outs σ2 e hres] at h
      exact absurd h (by simp)
  · intro σ g cp n args outs e h
    have hfile := preforkLoop_file g (resolveClasspath σ g cp) args outs (n - countIdle σ.status g)
      0 { σ with groups := setA σ.groups g (resolveClasspath σ g cp) }
    rcases hres : preforkLoop g (resolveClasspath σ g cp) args outs 0 (n - countIdle σ.status g)
      { σ with groups := setA σ.groups g (resolveClasspath σ g cp) } with ⟨σ2, err⟩
    rw [hres] at hfile
    simp only at hfile
    cases err with
    | none =>
      rw [prefork_jvm_of_loop_ok σ g cp n args outs σ2 hres] at h
      exact absurd h (by simp)
    | some e' =>
      rw [prefork_jvm_of_loop_fail σ g cp n args outs σ2 e' hres]
      exact hfile

/-- C6 witness: the dispatch branch of the persistence discipline at a
concrete successful dispatch. -/
theorem persistence_discipline_witness :
    (exec_ { σ0 with status := [("g", [slotA])] } "g" "com.Main" [] [] []).1.file =
      overwrite ({ σ0 with status := [("g", [slotA])] } : MState).file
        (serializeStatus (exec_ { σ0 with status := [("g", [slotA])] } "g" "com.Main" [] [] []).1.status) :=
  persistence_discipline.2.1 { σ0 with status := [("g", [slotA])] } "g" "com.Main" [] [] []
    slotA.pid (by rfl)

/-! ## Reconcile lemmas -/

theorem foldl_erase_cons {α : Type} [DecidableEq α] (a : α) (l items : List α)
    (h : ∀ x ∈ items, x ≠ a) :
    items.foldl (fun acc x => acc.erase x) (a :: l) =
      a :: items.foldl (fun acc x => acc.erase x) l := by
  induction items generalizing l with
  | nil => rfl
  | cons x items ih =>
    have hx : x ≠ a := h x (by simp)
    simp only [List.foldl_cons]
    rw [show (a :: l).erase x = a :: l.erase x from List.erase_cons_tail (by simp only [beq_iff_eq]; exact fun hh => hx hh.symm)]
    exact ih (l.erase x) (fun y hy => h y (by simp [hy]))

theorem foldl_erase_filter {α : Type} [DecidableEq α] (p : α → Bool) (l : List α) :
    (l.filter (fun a => !(p a))).foldl (fun acc x => acc.erase x) l = l.filter p := by
  induction l with
  | nil => rfl
  | cons a l ih =>
    by_cases hpa : p a
    · rw [show (a :: l).filter (fun a => !(p a)) = l.filter (fun a => !(p a)) by simp [hpa]]
      rw [foldl_erase_cons a l _ ?hne, ih]
      · simp [hpa]
      case hne =>
        intro x hx hxa
        subst hxa
        have := List.of_mem_filter hx
        simp [hpa] at this
    · rw [show (a :: l).filter (fun a => !(p a)) = a :: l.filter (fun a => !(p a)) by simp [hpa]]
      simp only [List.foldl_cons, List.erase_cons_head]
      rw [ih]
      simp [hpa]

theorem reapGroup_eq_filter (alive : Nat → Bool) (ps : List ProcessInfo) :
    reapGroup alive ps = ps.filter (fun p => alive p.pid) := by
  simpa [reapGroup] using foldl_erase_filter (fun p : ProcessInfo => alive p.pid) ps

theorem reapGroup_idem (alive : Nat → Bool) (ps : List ProcessInfo) :
    reapGroup alive (reapGroup alive ps) = reapGroup alive ps := by
  rw [reapGroup_eq_filter, reapGroup_eq_filter]
  exact List.filter_eq_self.mpr (fun a ha => (List.mem_filter.mp ha).2)

theorem overwrite_overwrite (f new : List Char) :
    overwrite (overwrite f new) new = overwrite f new := by
  simp only [overwrite]
  rw [List.drop_left]

/-- C8: reconcile is idempotent — two consecutive `update_status` calls
against the same liveness oracle leave the entire object state, the
in-memory registry and the persisted file's bytes included, identical after
the second call to what it was after the first. -/
theorem update_status_idempotent (σ : MState) (alive : Nat → Bool) :
    update_status (update_status σ alive) alive = update_status σ alive := by
  have hstat : (σ.status.map (fun e => (e.1, reapGroup alive e.2))).map
      (fun e => (e.1, reapGroup alive e.2)) = σ.status.map (fun e => (e.1, reapGroup alive e.2)) := by
    rw [List.map_map]
    exact List.map_congr_left (fun e _ => by simp [Function.comp, reapGroup_idem])
  simp only [update_status]
  rw [hstat, overwrite_overwrite]

/-! ## Slot-identity lemmas (for the CommandSent monotonicity claim) -/

theorem allSlots_ensureKey (st : Registry) (g : String) :
    allSlots (ensureKey st g []) = allSlots st := by
  induction st with
  | nil => simp [ensureKey, allSlots]
  | cons e rest ih =>
    obtain ⟨a, b⟩ := e
    by_cases ha : a = g <;> simp [ensureKey, allSlots, ha, ih]

theorem allSlots_setA_of_lookup (st : Registry) (g : String) (ps ps' : List ProcessInfo)
    (h : lookupA st g = some ps) :
    ∃ A B, allSlots st = A ++ ps ++ B ∧ allSlots (setA st g ps') = A ++ ps' ++ B := by
  induction st with
  | nil => simp [lookupA] at h
  | cons e rest ih =>
    obtain ⟨a, b⟩ := e
    by_cases ha : a = g
    · have hb : b = ps := by simpa [lookupA, ha] using h
      subst hb
      refine ⟨[], allSlots rest, ?_, ?_⟩
      · simp [allSlots]
      · simp [setA, ha, allSlots]
    · obtain ⟨A, B, h1, h2⟩ := ih (by simpa [lookupA, ha] using h)
      refine ⟨b ++ A, B, ?_, ?_⟩
      · simp [allSlots, h1]
      · simp [setA, ha, allSlots, h2]

theorem execLoop_some_inv (main pargs sprops envs : String) :
    ∀ (ps l : List ProcessInfo) (q : ProcessInfo) (m : String),
    execLoop main pargs sprops envs ps = some (l, q, m) →
    ∃ pre post, ps = pre ++ q :: post ∧ q.status = STATUS_IDLE ∧
      l = pre ++ { q with status := STATUS_COMMAND_SENT } :: post := by
  intro ps
  induction ps with
  | nil => intro l q m h; simp [execLoop] at h
  | cons p rest ih =>
    intro l q m h
    by_cases hp : p.status = STATUS_IDLE
    · simp only [execLoop, if_pos hp, Option.some.injEq, Prod.mk.injEq] at h
      obtain ⟨h1, h2, h3⟩ := h
      subst h2
      refine ⟨[], rest, by simp, hp, by simp [h1]⟩
    · simp only [execLoop, if_neg hp] at h
      cases hrec : execLoop main pargs sprops envs rest with
      | none => rw [hrec] at h; simp at h
      | some t =>
        obtain ⟨l', q', m'⟩ := t
        rw [hrec] at h
        simp only [Option.map_some', Option.some.injEq, Prod.mk.injEq] at h
        obtain ⟨h1, h2, h3⟩ := h
        obtain ⟨pre, post, e1, e2, e3⟩ := ih l' q' m' hrec
        subst h2
        exact ⟨p :: pre, post, by simp [e1], e2, by simp [e3, ← h1]⟩

theorem exec_nextSid (σ : MState) (g main : String) (args sysprops : List String)
    (env : List (String × String)) :
    (exec_ σ g main args sysprops env).1.nextSid = σ.nextSid := by
  cases hlk : lookupA σ.status g with
  | none => rw [exec_eq_of_lookup_none σ g main args sysprops env hlk]
  | some ps =>
    cases hloop : execLoop main (nulJoin args) (nulJoin sysprops) (envRender env) ps with
    | none => rw [exec_eq_of_no_idle σ g main args sysprops env ps hlk hloop]
    | some t =>
      obtain ⟨l, q, m⟩ := t
      rw [exec_eq_of_found σ g main args sysprops env ps l q m hlk hloop]

theorem exec_sid_preserved (σ : MState) (g main : String) (args sysprops : List String)
    (env : List (String × String)) (sid : Nat)
    (h : sidStatuses σ.status sid = [STATUS_COMMAND_SENT] ∨ sidStatuses σ.status sid = []) :
    sidStatuses (exec_ σ g main args sysprops env).1.status sid = sidStatuses σ.status sid := by
  cases hlk : lookupA σ.status g with
  | none => rw [exec_eq_of_lookup_none σ g main args sysprops env hlk]
  | some ps =>
    cases hloop : execLoop main (nulJoin args) (nulJoin sysprops) (envRender env) ps with
    | none => rw [exec_eq_of_no_idle σ g main args sysprops env ps hlk hloop]
    | some t =>
      obtain ⟨l, q, m⟩ := t
      rw [exec_eq_of_found σ g main args sysprops env ps l q m hlk hloop]
      obtain ⟨pre, post, hps, hq, hl⟩ := execLoop_some_inv main _ _ _ ps l q m hloop
      subst hps
      subst hl
      obtain ⟨A, B, hA, hB⟩ := allSlots_setA_of_lookup σ.status g _
        (pre ++ { q with status := STATUS_COMMAND_SENT } :: post) hlk
      by_cases hqsid : (q.sid == sid) = true
      · exfalso
        have hqmem : q ∈ slotsWithSid σ.status sid := by
          simp only [slotsWithSid, hA]
          refine List.mem_filter.mpr ⟨?_, hqsid⟩
          simp
        have hstatmem : q.status ∈ sidStatuses σ.status sid :=
          List.mem_map.mpr ⟨q, hqmem, rfl⟩
        cases h with
        | inl h1 =>
          rw [h1] at hstatmem
          rw [hq] at hstatmem
          simp [STATUS_IDLE, STATUS_COMMAND_SENT] at hstatmem
        | inr h1 =>
          rw [h1] at hstatmem
          simp at hstatmem
      · have hfq : ((q.sid == sid) : Bool) = false := by simpa using hqsid
        have e1 : (q :: post).filter (fun p => p.sid == sid)
            = post.filter (fun p => p.sid == sid) := by
          simp [List.filter_cons, hfq]
        have e2 : ({ q with status := STATUS_COMMAND_SENT } :: post).filter (fun p => p.sid == sid)
            = post.filter (fun p => p.sid == sid) := by
          simp [List.filter_cons, hfq]
        show sidStatuses (setA σ.status g (pre ++ { q with status := STATUS_COMMAND_SENT } :: post)) sid
          = sidStatuses σ.status sid
        simp only [sidStatuses, slotsWithSid, hA, hB, List.filter_append, e1, e2]

theorem run_jvm_sid (σ : MState) (g cp : String) (args : List String) (res : SpawnRes)
    (sid : Nat) (hsid : sid < σ.nextSid) :
    sidStatuses (run_jvm σ g cp args res).1.status sid = sidStatuses σ.status sid ∧
    σ.nextSid ≤ (run_jvm σ g cp args res).1.nextSid := by
  cases hres : res.poll with
  | some rc =>
    rw [run_jvm_poll_some σ g cp args res rc hres]
    constructor
    · show sidStatuses (ensureKey σ.status g []) sid = sidStatuses σ.status sid
      simp only [sidStatuses, slotsWithSid, allSlots_ensureKey]
    · exact Nat.le_refl _
  | none =>
    rw [run_jvm_poll_none σ g cp args res hres]
    constructor
    · have hlk2 : lookupA (ensureKey σ.status g []) g = some ((lookupA σ.status g).getD []) :=
        lookupA_ensureKey_eq σ.status g []
      obtain ⟨A, B, h1, h2⟩ := allSlots_setA_of_lookup (ensureKey σ.status g []) g _
        (((lookupA σ.status g).getD []) ++ [newSlot σ g cp args res.pid]) hlk2
      show sidStatuses (setA (ensureKey σ.status g []) g
        (((lookupA σ.status g).getD []) ++ [newSlot σ g cp args res.pid])) sid
        = sidStatuses σ.status sid
      have hne : σ.nextSid ≠ sid := by omega
      have hnew : (((newSlot σ g cp args res.pid).sid == sid) : Bool) = false := by
        simp [newSlot, hne]
      have hR : allSlots σ.status = A ++ ((lookupA σ.status g).getD []) ++ B := by
        rw [show allSlots σ.status = allSlots (ensureKey σ.status g []) from
          (allSlots_ensureKey σ.status g).symm]
        exact h1
      simp only [sidStatuses, slotsWithSid, h2, hR, List.filter_append]
      simp [hnew]
    · show σ.nextSid ≤ σ.nextSid + 1
      omega

theorem preforkLoop_sid (g cp : String) (args : List String) (outs : Nat → SpawnRes) :
    ∀ (c i : Nat) (σ : MState) (sid : Nat), sid < σ.nextSid →
    sidStatuses (preforkLoop g cp args outs i c σ).1.status sid = sidStatuses σ.status sid ∧
    σ.nextSid ≤ (preforkLoop g cp args outs i c σ).1.nextSid := by
  intro c
  induction c with
  | zero => intro i σ sid h; exact ⟨rfl, Nat.le_refl _⟩
  | succ c ih =>
    intro i σ sid h
    obtain ⟨hs, hn⟩ := run_jvm_sid σ g cp args (outs i) sid h
    rcases hr : run_jvm σ g cp args (outs i) with ⟨σ', err⟩
    rw [hr] at hs hn
    simp only at hs hn
    cases err with
    | none =>
      have hstep : preforkLoop g cp args outs i (c + 1) σ
          = preforkLoop g cp args outs (i + 1) c σ' := by
        simp only [preforkLoop, hr]
      obtain ⟨hs2, hn2⟩ := ih (i + 1) σ' sid (lt_of_lt_of_le h hn)
      rw [hstep]
      exact ⟨hs2.trans hs, hn.trans hn2⟩
    | some e =>
      have hstep : preforkLoop g cp args outs i (c + 1) σ = (σ', some e) := by
        simp only [preforkLoop, hr]
      rw [hstep]
      exact ⟨hs, hn⟩

theorem prefork_sid (σ : MState) (g : String) (cp : Option String) (n : Nat)
    (args : List String) (outs : Nat → SpawnRes) (sid : Nat) (hsid : sid < σ.nextSid) :
    sidStatuses (prefork_jvm σ g cp n args outs).1.status sid = sidStatuses σ.status sid ∧
    σ.nextSid ≤ (prefork_jvm σ g cp n args outs).1.nextSid := by
  obtain ⟨hs, hn⟩ := preforkLoop_sid g (resolveClasspath σ g cp) args outs
    (n - countIdle σ.status g) 0
    { σ with groups := setA σ.groups g (resolveClasspath σ g cp) } sid hsid
  rcases hres : preforkLoop g (resolveClasspath σ g cp) args outs 0 (n - countIdle σ.status g)
    { σ with groups := setA σ.groups g (resolveClasspath σ g cp) } with ⟨σ2, err⟩
  rw [hres] at hs hn
  simp only at hs hn
  cases err with
  | none =>
    rw [prefork_jvm_of_loop_ok σ g cp n args outs σ2 hres]
    exact ⟨hs, hn⟩
  | some e =>
    rw [prefork_jvm_of_loop_fail σ g cp n args outs σ2 e hres]
    exact ⟨hs, hn⟩

theorem slotsWithSid_update (st : Registry) (alive : Nat → Bool) (sid : Nat) :
    slotsWithSid (st.map (fun e => (e.1, reapGroup alive e.2))) sid =
      (slotsWithSid st sid).filter (fun p => alive p.pid) := by
  simp only [slotsWithSid]
  induction st with
  | nil => rfl
  | cons e rest ih =>
    obtain ⟨a, b⟩ := e
    simp only [reapGroup_eq_filter] at ih ⊢
    simp only [List.map_cons, allSlots, List.filter_append]
    rw [ih, List.filter_comm]

theorem runOp_sid_step (σ : MState) (op : Op) (sid : Nat) (hsid : sid < σ.nextSid)
    (h : sidStatuses σ.status sid = [STATUS_COMMAND_SENT] ∨ sidStatuses σ.status sid = []) :
    sid < (runOp σ op).nextSid ∧
    (sidStatuses (runOp σ op).status sid = [STATUS_COMMAND_SENT] ∨
      sidStatuses (runOp σ op).status sid = []) := by
  cases op with
  | prefork g cp n args outs =>
    obtain ⟨hs, hn⟩ := prefork_sid σ g cp n args outs sid hsid
    simp only [runOp]
    refine ⟨lt_of_lt_of_le hsid hn, ?_⟩
    rw [hs]
    exact h
  | exec g m a sp e =>
    have hs := exec_sid_preserved σ g m a sp e sid h
    have hn := exec_nextSid σ g m a sp e
    simp only [runOp]
    refine ⟨by rw [hn]; exact hsid, ?_⟩
    rw [hs]
    exact h
  | reconcile alive =>
    have hupd : sidStatuses (update_status σ alive).status sid =
        ((slotsWithSid σ.status sid).filter (fun p => alive p.pid)).map (fun p => p.status) := by
      simp only [update_status, sidStatuses]
      rw [slotsWithSid_update]
    simp only [runOp]
    refine ⟨hsid, ?_⟩
    rw [hupd]
    cases h with
    | inl h1 =>
      simp only [sidStatuses] at h1
      cases hsw : slotsWithSid σ.status sid with
      | nil =>
        rw [hsw] at h1
        simp at h1
      | cons p t =>
        rw [hsw] at h1
        simp only [List.map_cons] at h1
        have hp1 : p.status = STATUS_COMMAND_SENT := by
          have := List.head_eq_of_cons_eq h1
          simpa using this
        have ht : t = [] := by
          have := List.tail_eq_of_cons_eq h1
          simpa using this
        subst ht
        by_cases ha : alive p.pid
        · left
          simp [List.filter_cons, ha, hp1]
        · right
          simp [List.filter_cons, ha]
    | inr h1 =>
      simp only [sidStatuses] at h1
      have hsw : slotsWithSid σ.status sid = [] := by
        cases hsw : slotsWithSid σ.status sid with
        | nil => rfl
        | cons p t => rw [hsw] at h1; simp at h1
      rw [hsw]
      right
      simp

/-! ## Claim theorem: CommandSent monotonicity -/

/-- C7: across every sequence of ensure, dispatch and reconcile operations,
no slot ever goes from CommandSent back to Idle — a slot (identified by its
model tag `sid`, fresh tags being handed out by spawns) that is CommandSent
is, after any operation sequence, either still present with status
CommandSent or removed from the Registry. -/
theorem commandSent_never_reverts (σ : MState) (sid : Nat) (ops : List Op)
    (hsid : sid < σ.nextSid)
    (h : sidStatuses σ.status sid = [STATUS_COMMAND_SENT]) :
    sidStatuses (runOps σ ops).status sid = [STATUS_COMMAND_SENT] ∨
    sidStatuses (runOps σ ops).status sid = [] := by
  suffices H : ∀ (ops : List Op) (σ : MState), sid < σ.nextSid →
      (sidStatuses σ.status sid = [STATUS_COMMAND_SENT] ∨ sidStatuses σ.status sid = []) →
      (sidStatuses (runOps σ ops).status sid = [STATUS_COMMAND_SENT] ∨
        sidStatuses (runOps σ ops).status sid = []) by
    exact H ops σ hsid (Or.inl h)
  intro ops
  induction ops with
  | nil => intro σ h1 h2; exact h2
  | cons op ops ih =>
    intro σ h1 h2
    obtain ⟨h1', h2'⟩ := runOp_sid_step σ op sid h1 h2
    simpa only [runOps, List.foldl_cons] using ih (runOp σ op) h1' h2'

/-- C7 witness: a CommandSent slot stays CommandSent-or-gone across a
reconcile, a dispatch and an ensure. -/
theorem commandSent_never_reverts_witness :
    sidStatuses (runOps { σ0 with status := [("g", [slotB])], nextSid := 2 }
      [Op.reconcile (fun _ => true), Op.exec "g" "com.Main" [] [] [],
        Op.prefork "g" (some "/x.jar") 1 [] outsOk]).status 1 = [STATUS_COMMAND_SENT] ∨
    sidStatuses (runOps { σ0 with status := [("g", [slotB])], nextSid := 2 }
      [Op.reconcile (fun _ => true), Op.exec "g" "com.Main" [] [] [],
        Op.prefork "g" (some "/x.jar") 1 [] outsOk]).status 1 = [] :=
  commandSent_never_reverts { σ0 with status := [("g", [slotB])], nextSid := 2 } 1
    [Op.reconcile (fun _ => true), Op.exec "g" "com.Main" [] [] [],
      Op.prefork "g" (some "/x.jar") 1 [] outsOk] (by decide) (by decide)

/-! ## Parser round-trip lemmas -/

theorem string_mk_data (s : String) : String.mk s.data = s := rfl

theorem parseLit_append (lit r : List Char) : parseLit lit (lit ++ r) = some r := by
  induction lit with
  | nil => rfl
  | cons c cs ih => simp [parseLit, ih]

theorem digitVal_decChar (d : Nat) (h : d < 10) : digitVal (decChar d) = some d := by
  interval_cases d <;> decide

theorem parseNatAux_stop (a : Nat) (rest : List Char) (h : noDigitHead rest) :
    parseNatAux a rest = (a, rest) := by
  cases rest with
  | nil => rfl
  | cons c r =>
    have hc : digitVal c = none := h
    simp [parseNatAux, hc]

theorem parseNatAux_digits (ds : List Char) (hds : ∀ c ∈ ds, ∃ v, digitVal c = some v) :
    ∀ (a : Nat) (rest : List Char), noDigitHead rest →
    parseNatAux a (ds ++ rest) =
      (ds.foldl (fun x c => x * 10 + (digitVal c).getD 0) a, rest) := by
  induction ds with
  | nil =>
    intro a rest h
    simpa using parseNatAux_stop a rest h
  | cons c ds ih =>
    intro a rest h
    obtain ⟨v, hv⟩ := hds c (by simp)
    simp only [List.cons_append, parseNatAux, hv]
    show parseNatAux (a * 10 + v) (ds ++ rest)
      = (List.foldl (fun x c => x * 10 + (digitVal c).getD 0) a (c :: ds), rest)
    rw [ih (fun x hx => hds x (by simp [hx])) (a * 10 + v) rest h]
    simp [hv]

theorem natDigitsAux_digits : ∀ (fuel n : Nat), n ≤ fuel →
    ∀ c ∈ natDigitsAux fuel n, ∃ v, digitVal c = some v := by
  intro fuel
  induction fuel with
  | zero => intro n h c hc; simp [natDigitsAux] at hc
  | succ fuel ih =>
    intro n h c hc
    by_cases h0 : n = 0
    · subst h0; simp [natDigitsAux] at hc
    · simp only [natDigitsAux, if_neg h0] at hc
      rcases List.mem_append.mp hc with hc1 | hc2
      · exact ih (n / 10) (by omega) c hc1
      · have hc2' : c = decChar (n % 10) := by simpa using hc2
        subst hc2'
        exact ⟨n % 10, digitVal_decChar _ (Nat.mod_lt n (by omega))⟩

theorem natDigitsAux_foldl : ∀ (fuel n : Nat), n ≤ fuel → ∀ (a : Nat),
    (natDigitsAux fuel n).foldl (fun x c => x * 10 + (digitVal c).getD 0) a =
      a * 10 ^ (natDigitsAux fuel n).length + n := by
  intro fuel
  induction fuel with
  | zero =>
    intro n h a
    have h0 : n = 0 := by omega
    subst h0
    simp [natDigitsAux]
  | succ fuel ih =>
    intro n h a
    by_cases h0 : n = 0
    · subst h0; simp [natDigitsAux]
    · simp only [natDigitsAux, if_neg h0]
      rw [List.foldl_append]
      rw [ih (n / 10) (by omega) a]
      simp only [List.foldl_cons, List.foldl_nil, List.length_append, List.length_cons,
        List.length_nil]
      rw [digitVal_decChar _ (Nat.mod_lt n (by omega))]
      simp only [Option.getD_some]
      have hdm : 10 * (n / 10) + n % 10 = n := Nat.div_add_mod n 10
      calc (a * 10 ^ (natDigitsAux fuel (n / 10)).length + n / 10) * 10 + n % 10
          = a * 10 ^ ((natDigitsAux fuel (n / 10)).length + (0 + 1))
            + (10 * (n / 10) + n % 10) := by ring
        _ = a * 10 ^ ((natDigitsAux fuel (n / 10)).length + (0 + 1)) + n := by rw [hdm]

theorem parseNat_digits (D : List Char) (hD : ∀ c ∈ D, ∃ v, digitVal c = some v)
    (hne : D ≠ []) (rest : List Char) (hrest : noDigitHead rest) :
    parseNat (D ++ rest) =
      some (D.foldl (fun x c => x * 10 + (digitVal c).getD 0) 0, rest) := by
  cases D with
  | nil => exact absurd rfl hne
  | cons c D =>
    obtain ⟨v, hv⟩ := hD c (by simp)
    simp only [List.cons_append, parseNat, hv]
    rw [parseNatAux_digits D (fun x hx => hD x (by simp [hx])) v rest hrest]
    simp [hv]

theorem natDigitsAux_ne_nil (n : Nat) (h : n ≠ 0) : natDigitsAux n n ≠ [] := by
  cases n with
  | zero => exact absurd rfl h
  | succ m => simp [natDigitsAux]

theorem parseNat_natToChars (n : Nat) (rest : List Char) (hrest : noDigitHead rest) :
    parseNat (natToChars n ++ rest) = some (n, rest) := by
  by_cases h0 : n = 0
  · subst h0
    show some (parseNatAux 0 rest) = some (0, rest)
    rw [parseNatAux_stop 0 rest hrest]
  · have hD := natDigitsAux_digits n n (Nat.le_refl n)
    have hval := natDigitsAux_foldl n n (Nat.le_refl n) 0
    rw [show natToChars n = natDigitsAux n n from by simp [natToChars, h0]]
    rw [parseNat_digits _ hD (natDigitsAux_ne_nil n h0) rest hrest, hval]
    simp

theorem parseStrAux_append (s : List Char) (h : ∀ c ∈ s, c ≠ '"') :
    ∀ (acc rest : List Char),
    parseStrAux acc (s ++ '"' :: rest) = some (String.mk (acc.reverse ++ s), rest) := by
  induction s with
  | nil =>
    intro acc rest
    simp [parseStrAux]
  | cons c s ih =>
    intro acc rest
    have hc : c ≠ '"' := h c (by simp)
    simp only [List.cons_append, parseStrAux, if_neg hc]
    show parseStrAux (c :: acc) (s ++ '"' :: rest) = some (String.mk (acc.reverse ++ c :: s), rest)
    rw [ih (fun x hx => h x (by simp [hx])) (c :: acc) rest]
    simp

theorem parseQStr_qChars (s : String) (hs : jsonSafeStr s = true) (rest : List Char) :
    parseQStr (qChars s ++ rest) = some (s, rest) := by
  have h : ∀ c ∈ s.data, c ≠ '"' := by
    intro c hc heq
    have hall := List.all_eq_true.mp hs c hc
    rw [heq] at hall
    exact absurd hall (by decide)
  have hassoc : qChars s ++ rest = '"' :: (s.data ++ '"' :: rest) := by
    simp [qChars]
  rw [hassoc]
  simp only [parseQStr]
  rw [parseStrAux_append s.data h [] rest]
  simp [string_mk_data]

theorem noDigitHead_append_of_ne_nil (l tail : List Char) (hne : l ≠ [])
    (h : noDigitHead l) : noDigitHead (l ++ tail) := by
  cases l with
  | nil => exact absurd rfl hne
  | cons c r => exact h

theorem serializeSlotChars_eq (p : ProcessInfo) :
    serializeSlotChars p =
      "\x7b\"pid\": ".data ++ (natToChars p.pid ++ (", \"status\": ".data
        ++ (natToChars p.status ++ (", \"unique_id\": ".data ++ (qChars p.unique_id
        ++ (", \"control\": ".data ++ (qChars p.control ++ (", \"commandline\": ".data
        ++ (qChars p.commandline ++ (", \"classpath\": ".data ++ (qChars p.classpath
        ++ "\x7d".data))))))))))) := by
  have h1 : ("\x7b\"pid\": ".data : List Char) = '\x7b' :: "\"pid\": ".data := rfl
  simp only [serializeSlotChars, h1, List.cons_append, List.append_assoc]

theorem parseSlot_serialize (p : ProcessInfo) (hp : jsonSafeSlot p = true)
    (rest : List Char) :
    parseSlot (serializeSlotChars p ++ rest) = some (zeroSid p, rest) := by
  have hsafe : ((jsonSafeStr p.unique_id = true ∧ jsonSafeStr p.control = true)
      ∧ jsonSafeStr p.commandline = true) ∧ jsonSafeStr p.classpath = true := by
    simpa [jsonSafeSlot, Bool.and_eq_true] using hp
  obtain ⟨⟨⟨hs1, hs2⟩, hs3⟩, hs4⟩ := hsafe
  have hnd1 : noDigitHead ((", \"status\": ".data : List Char) ++ (natToChars p.status
      ++ (", \"unique_id\": ".data ++ (qChars p.unique_id ++ (", \"control\": ".data
      ++ (qChars p.control ++ (", \"commandline\": ".data ++ (qChars p.commandline
      ++ (", \"classpath\": ".data ++ (qChars p.classpath ++ ("\x7d".data ++ rest))))))))))) :=
    noDigitHead_append_of_ne_nil _ _ (by decide) (by show digitVal ',' = none; decide)
  have hnd2 : noDigitHead ((", \"unique_id\": ".data : List Char) ++ (qChars p.unique_id
      ++ (", \"control\": ".data ++ (qChars p.control ++ (", \"commandline\": ".data
      ++ (qChars p.commandline ++ (", \"classpath\": ".data ++ (qChars p.classpath
      ++ ("\x7d".data ++ rest))))))))) :=
    noDigitHead_append_of_ne_nil _ _ (by decide) (by show digitVal ',' = none; decide)
  rw [serializeSlotChars_eq]
  simp only [List.append_assoc]
  simp only [parseSlot]
  rw [parseLit_append]
  simp only [Option.some_bind]
  rw [parseNat_natToChars p.pid _ hnd1]
  simp only [Option.some_bind]
  rw [parseLit_append]
  simp only [Option.some_bind]
  rw [parseNat_natToChars p.status _ hnd2]
  simp only [Option.some_bind]
  rw [parseLit_append]
  simp only [Option.some_bind]
  rw [parseQStr_qChars p.unique_id hs1]
  simp only [Option.some_bind]
  rw [parseLit_append]
  simp only [Option.some_bind]
  rw [parseQStr_qChars p.control hs2]
  simp only [Option.some_bind]
  rw [parseLit_append]
  simp only [Option.some_bind]
  rw [parseQStr_qChars p.commandline hs3]
  simp only [Option.some_bind]
  rw [parseLit_append]
  simp only [Option.some_bind]
  rw [parseQStr_qChars p.classpath hs4]
  simp only [Option.some_bind]
  rw [parseLit_append]
  simp only [Option.some_bind]
  rfl

theorem parseSlotsTail_serialize :
    ∀ (ps : List ProcessInfo) (fuel : Nat), ps.length < fuel →
    (∀ p ∈ ps, jsonSafeSlot p = true) →
    ∀ (acc : List ProcessInfo) (rest : List Char),
    parseSlotsTail fuel acc (serializeSlotsAux ps ++ ']' :: rest) =
      some (acc.reverse ++ ps.map zeroSid, rest) := by
  intro ps
  induction ps with
  | nil =>
    intro fuel hf hsafe acc rest
    cases fuel with
    | zero => omega
    | succ fuel =>
      show parseSlotsTail (fuel + 1) acc (']' :: rest) = some (acc.reverse ++ [], rest)
      simp [parseSlotsTail]
  | cons p ps ih =>
    intro fuel hf hsafe acc rest
    cases fuel with
    | zero => omega
    | succ fuel =>
      have hassoc : serializeSlotsAux (p :: ps) ++ ']' :: rest
          = ',' :: ' ' :: (serializeSlotChars p ++ (serializeSlotsAux ps ++ ']' :: rest)) := by
        simp [serializeSlotsAux, List.append_assoc]
      rw [hassoc]
      show (parseSlot (serializeSlotChars p ++ (serializeSlotsAux ps ++ ']' :: rest))).bind
          (fun pr => parseSlotsTail fuel (pr.1 :: acc) pr.2)
        = some (acc.reverse ++ (p :: ps).map zeroSid, rest)
      rw [parseSlot_serialize p (hsafe p (by simp)) _]
      simp only [Option.some_bind]
      rw [ih fuel (by simpa using Nat.lt_of_succ_lt_succ hf)
        (fun x hx => hsafe x (by simp [hx])) (zeroSid p :: acc) rest]
      simp

theorem parseSlots_serialize (ps : List ProcessInfo) (fuel : Nat) (hf : ps.length < fuel)
    (hsafe : ∀ p ∈ ps, jsonSafeSlot p = true) (rest : List Char) :
    parseSlots fuel (serializeSlots ps ++ rest) = some (ps.map zeroSid, rest) := by
  cases ps with
  | nil =>
    show parseSlots fuel ('[' :: ']' :: rest) = some ([], rest)
    rfl
  | cons p ps =>
    have hassoc : serializeSlots (p :: ps) ++ rest
        = '[' :: (serializeSlotChars p ++ (serializeSlotsAux ps ++ ']' :: rest)) := by
      simp [serializeSlots, List.append_assoc]
    rw [hassoc]
    show (parseSlot (serializeSlotChars p ++ (serializeSlotsAux ps ++ ']' :: rest))).bind
        (fun pr => parseSlotsTail fuel [pr.1] pr.2) = some ((p :: ps).map zeroSid, rest)
    rw [parseSlot_serialize p (hsafe p (by simp)) _]
    simp only [Option.some_bind]
    rw [parseSlotsTail_serialize ps fuel (by simpa using Nat.lt_of_succ_lt hf)
      (fun x hx => hsafe x (by simp [hx])) [zeroSid p] rest]
    simp

theorem parseEntry_serialize (e : String × List ProcessInfo) (fuel : Nat)
    (hf : e.2.length < fuel) (hg : jsonSafeStr e.1 = true)
    (hsafe : ∀ p ∈ e.2, jsonSafeSlot p = true) (rest : List Char) :
    parseEntry fuel (serializeEntry e ++ rest) =
      some ((e.1, e.2.map zeroSid), rest) := by
  have hassoc : serializeEntry e ++ rest
      = qChars e.1 ++ ((": ".data : List Char) ++ (serializeSlots e.2 ++ rest)) := by
    simp [serializeEntry, List.append_assoc]
  rw [hassoc]
  simp only [parseEntry]
  rw [parseQStr_qChars e.1 hg]
  simp only [Option.some_bind]
  rw [parseLit_append]
  simp only [Option.some_bind]
  rw [parseSlots_serialize e.2 fuel hf hsafe rest]
  simp only [Option.some_bind]

theorem parseGroupsTail_serialize :
    ∀ (st : Registry) (fuel : Nat), regWeight st < fuel →
    jsonSafeStatus st = true →
    ∀ (acc : Registry) (rest : List Char),
    parseGroupsTail fuel acc (serializeGroupsAux st ++ '\x7d' :: rest) =
      some (acc.reverse ++ st.map (fun e => (e.1, e.2.map zeroSid)), rest) := by
  intro st
  induction st with
  | nil =>
    intro fuel hf hsafe acc rest
    cases fuel with
    | zero => exact absurd hf (Nat.not_lt_zero _)
    | succ fuel =>
      show parseGroupsTail (fuel + 1) acc ('\x7d' :: rest) = some (acc.reverse ++ [], rest)
      simp [parseGroupsTail]
  | cons e st ih =>
    intro fuel hf hsafe acc rest
    have hf' : 1 + e.2.length + regWeight st < fuel := hf
    cases fuel with
    | zero => exact absurd hf' (Nat.not_lt_zero _)
    | succ fuel =>
      obtain ⟨⟨hg, hslots⟩, hrest⟩ : (jsonSafeStr e.1 = true ∧ e.2.all jsonSafeSlot = true)
          ∧ jsonSafeStatus st = true := by
        simpa [jsonSafeStatus, List.all_cons, Bool.and_eq_true] using hsafe
      have hslots' : ∀ p ∈ e.2, jsonSafeSlot p = true := List.all_eq_true.mp hslots
      have hassoc : serializeGroupsAux (e :: st) ++ '\x7d' :: rest
          = ',' :: ' ' :: (serializeEntry e ++ (serializeGroupsAux st ++ '\x7d' :: rest)) := by
        simp [serializeGroupsAux, List.append_assoc]
      rw [hassoc]
      show (parseEntry fuel (serializeEntry e ++ (serializeGroupsAux st ++ '\x7d' :: rest))).bind
          (fun er => parseGroupsTail fuel (er.1 :: acc) er.2)
        = some (acc.reverse ++ (e :: st).map (fun e => (e.1, e.2.map zeroSid)), rest)
      rw [parseEntry_serialize e fuel (by omega) hg hslots' _]
      simp only [Option.some_bind]
      rw [ih fuel (by omega) hrest ((e.1, e.2.map zeroSid) :: acc) rest]
      simp

theorem parseStatus_serialize (st : Registry) (fuel : Nat) (hf : regWeight st < fuel)
    (hsafe : jsonSafeStatus st = true) (rest : List Char) :
    parseStatus fuel (serializeStatus st ++ rest) =
      some (st.map (fun e => (e.1, e.2.map zeroSid)), rest) := by
  cases st with
  | nil =>
    show parseStatus fuel ('\x7b' :: '\x7d' :: rest) = some ([], rest)
    rfl
  | cons e st =>
    have hf' : 1 + e.2.length + regWeight st < fuel := hf
    obtain ⟨⟨hg, hslots⟩, hrest⟩ : (jsonSafeStr e.1 = true ∧ e.2.all jsonSafeSlot = true)
        ∧ jsonSafeStatus st = true := by
      simpa [jsonSafeStatus, List.all_cons, Bool.and_eq_true] using hsafe
    have hslots' : ∀ p ∈ e.2, jsonSafeSlot p = true := List.all_eq_true.mp hslots
    have hassoc : serializeStatus (e :: st) ++ rest
        = '\x7b' :: (serializeEntry e ++ (serializeGroupsAux st ++ '\x7d' :: rest)) := by
      simp [serializeStatus, List.append_assoc]
    rw [hassoc]
    show (parseEntry fuel (serializeEntry e ++ (serializeGroupsAux st ++ '\x7d' :: rest))).bind
        (fun er => parseGroupsTail fuel [er.1] er.2)
      = some ((e :: st).map (fun e => (e.1, e.2.map zeroSid)), rest)
    rw [parseEntry_serialize e fuel (by omega) hg hslots' _]
    simp only [Option.some_bind]
    rw [parseGroupsTail_serialize st fuel (by omega) hrest [(e.1, e.2.map zeroSid)] rest]
    simp

theorem serializeSlotsAux_length_ge (ps : List ProcessInfo) :
    ps.length ≤ (serializeSlotsAux ps).length := by
  induction ps with
  | nil => simp [serializeSlotsAux]
  | cons p ps ih =>
    simp only [serializeSlotsAux, List.length_cons, List.length_append]
    omega

theorem serializeSlots_length_ge (ps : List ProcessInfo) :
    ps.length + 1 ≤ (serializeSlots ps).length := by
  cases ps with
  | nil => simp [serializeSlots]
  | cons p ps =>
    have := serializeSlotsAux_length_ge ps
    simp only [serializeSlots, List.length_cons, List.length_append]
    omega

theorem serializeEntry_length_ge (e : String × List ProcessInfo) :
    e.2.length + 2 ≤ (serializeEntry e).length := by
  have := serializeSlots_length_ge e.2
  simp only [serializeEntry, qChars, List.length_append, List.length_cons]
  omega

theorem serializeGroupsAux_length_ge (st : Registry) :
    regWeight st ≤ (serializeGroupsAux st).length := by
  induction st with
  | nil => simp [serializeGroupsAux, regWeight]
  | cons e st ih =>
    have he := serializeEntry_length_ge e
    have hw : regWeight (e :: st) = 1 + e.2.length + regWeight st := rfl
    simp only [serializeGroupsAux, List.length_cons, List.length_append, hw]
    omega

theorem regWeight_le_serializeStatus (st : Registry) :
    regWeight st ≤ (serializeStatus st).length := by
  cases st with
  | nil => simp [serializeStatus, regWeight]
  | cons e st =>
    have he := serializeEntry_length_ge e
    have hg := serializeGroupsAux_length_ge st
    have hw : regWeight (e :: st) = 1 + e.2.length + regWeight st := rfl
    simp only [serializeStatus, List.length_cons, List.length_append, hw]
    omega

theorem jsonLoad_serialize (st : Registry) (hsafe : jsonSafeStatus st = true) :
    jsonLoad (serializeStatus st) = some (st.map (fun e => (e.1, e.2.map zeroSid))) := by
  have hlen : regWeight st < (serializeStatus st).length + 1 := by
    have := regWeight_le_serializeStatus st
    omega
  have h := parseStatus_serialize st ((serializeStatus st).length + 1) hlen hsafe []
  rw [List.append_nil] at h
  simp [jsonLoad, h]

/-! ## Claim theorems: persist-then-reload -/

set_option maxRecDepth 10000 in
/-- C9 counterexample: a one-slot registry persisted over the longer
previous content of a two-slot registry leaves stale trailing bytes; the
construction-time reload then fails to parse (json.load "Extra data") and
silently yields the empty registry, not the persisted state. -/
theorem persist_reload_cex :
    loadStatus (overwrite (serializeStatus [("g", [slotA, slotB])])
      (serializeStatus [("g", [slotA])])) = [] ∧
    fieldsOf (loadStatus (overwrite (serializeStatus [("g", [slotA, slotB])])
      (serializeStatus [("g", [slotA])]))) ≠ fieldsOf [("g", [slotA])] := by
  have h1 : loadStatus (overwrite (serializeStatus [("g", [slotA, slotB])])
      (serializeStatus [("g", [slotA])])) = [] := by decide
  refine ⟨h1, ?_⟩
  rw [h1]
  simp [fieldsOf]

/-- C9 (amended): persisting a registry whose strings need no JSON escaping
(printable ASCII without quote or backslash — what `json.dump` emits
verbatim) and then loading the file back, as done at construction, yields a
registry with the same group set and order, the same slot order within each
group, and every persisted slot field (pid, status, unique_id, control,
commandline, classpath) value-identical — provided the newly persisted
content is at least as long as the file's previous content.  (When it is
shorter, the un-truncated overwrite leaves stale trailing bytes, the parse
fails, and construction silently starts from an empty registry; see the
counterexample.) -/
theorem persist_reload_roundtrip (st : Registry) (oldFile : List Char)
    (hsafe : jsonSafeStatus st = true)
    (hlen : oldFile.length ≤ (serializeStatus st).length) :
    fieldsOf (loadStatus (overwrite oldFile (serializeStatus st))) = fieldsOf st := by
  have hov : overwrite oldFile (serializeStatus st) = serializeStatus st := by
    simp [overwrite, List.drop_eq_nil_of_le hlen]
  rw [hov]
  simp only [loadStatus, jsonLoad_serialize st hsafe, Option.getD_some]
  simp only [fieldsOf, List.map_map]
  apply List.map_congr_left
  intro e he
  simp [Function.comp, slotFields, zeroSid, List.map_map]

set_option maxRecDepth 10000 in
/-- C9 witness: round trip of a concrete one-slot registry over an empty
previous file. -/
theorem persist_reload_roundtrip_witness :
    fieldsOf (loadStatus (overwrite [] (serializeStatus [("g", [slotA])]))) =
      fieldsOf [("g", [slotA])] :=
  persist_reload_roundtrip [("g", [slotA])] [] (by decide) (by decide)
